import Mathlib

/-!
# wasabi-stats: usage reporter

A shallow embedding of `main.go` (one `main` function) together with the parts
of the Go runtime it relies on:

* `float64` values are IEEE-754 binary64 data (sign bit, biased exponent,
  fraction).  The magnitude of a finite datum is an exact natural number of
  units of `2^-1074`, so float addition, float division, the `int64`
  conversion, `%.2f` formatting and decimal parsing are all exact integer
  computations followed by one round-to-nearest-even step.
* the decoded JSON document (`map[string]interface{}`) is a tree of `JVal`.
* the process is a record of what was written to the two output streams, the
  requests handed to the HTTP client and the exit status.

Definitions come first, theorems follow.
-/

set_option exponentiation.threshold 5000
set_option maxRecDepth 100000

namespace WasabiStats

/-! ## float64 -/

/-- IEEE-754 binary64 datum: sign bit, 11-bit biased exponent, 52-bit fraction. -/
structure F64 where
  sign : Bool
  expo : Fin 2048
  frac : Fin 4503599627370496
deriving DecidableEq

namespace F64

/-- Number of `2^-1074` units in `1.0`. -/
def unitScale : Nat := 2 ^ 1074

/-- Exponent field below the all-ones pattern: neither an infinity nor a NaN. -/
def isFinite (x : F64) : Bool := decide (x.expo.val < 2047)

/-- All-ones exponent with a zero fraction. -/
def isInf (x : F64) : Bool := decide (x.expo.val = 2047) && decide (x.frac.val = 0)

/-- All-ones exponent with a non-zero fraction. -/
def isNaN (x : F64) : Bool := decide (x.expo.val = 2047) && !decide (x.frac.val = 0)

/-- Significand as an integer: the hidden bit is present unless the exponent field is zero. -/
def mant (x : F64) : Nat :=
  if x.expo.val = 0 then x.frac.val else 4503599627370496 + x.frac.val

/-- Magnitude of a finite datum in units of `2^-1074`. -/
def units (x : F64) : Nat := x.mant * 2 ^ (x.expo.val - 1)

/-- Exact rational value of a finite datum. -/
def toRat (x : F64) : ℚ :=
  (if x.sign then -1 else 1) * ((x.units : ℚ) / (unitScale : ℚ))

/-- Signed zero. -/
def zero (s : Bool) : F64 := ⟨s, 0, 0⟩

/-- Signed infinity. -/
def inf (s : Bool) : F64 := ⟨s, 2047, 0⟩

/-- The quiet NaN produced by invalid operations and by parsing `NaN`. -/
def nan : F64 := ⟨false, 2047, 2251799813685249⟩

/-- Quotient `n / d` rounded to the nearest integer, ties to the even one. -/
def roundHalfEven (n d : Nat) : Nat :=
  if 2 * (n % d) < d then n / d
  else if d < 2 * (n % d) then n / d + 1
  else if n / d % 2 = 0 then n / d else n / d + 1

/-- Number of low bits that must be dropped from `q` to leave at most 53 bits
(the first argument is recursion fuel; `q` itself is always enough). -/
def excessBits : Nat → Nat → Nat
  | 0, _ => 0
  | fuel + 1, q => if q < 9007199254740992 then 0 else excessBits fuel (q / 2) + 1

/-- Binary exponent (in units) of the datum nearest to `n / d` units, before
the carry out of the rounding step. -/
def ratioShift (n d : Nat) : Nat := excessBits (n / d) (n / d)

/-- Significand of the datum nearest to `n / d` units, before the carry. -/
def ratioMant (n d : Nat) : Nat := roundHalfEven n (d * 2 ^ ratioShift n d)

/-- Encoding of the magnitude `m * 2^sh` units, for `m < 2^53`: a subnormal
(exponent field 0) when the hidden bit is absent, an infinity when the
exponent field would reach the all-ones pattern, a normal datum otherwise. -/
def pack (s : Bool) (m sh : Nat) : F64 :=
  if m < 4503599627370496 then
    ⟨s, 0, ⟨m % 4503599627370496, Nat.mod_lt _ (by decide)⟩⟩
  else if 2046 ≤ sh then
    inf s
  else
    ⟨s, ⟨(sh + 1) % 2048, Nat.mod_lt _ (by decide)⟩,
      ⟨(m - 4503599627370496) % 4503599627370496, Nat.mod_lt _ (by decide)⟩⟩

/-- The binary64 datum nearest to `n / d` units (ties to even), with sign `s`;
magnitudes that round to `2^1024` or more become an infinity. -/
def ofRatio (s : Bool) (n d : Nat) : F64 :=
  if ratioMant n d = 9007199254740992 then pack s 4503599627370496 (ratioShift n d + 1)
  else pack s (ratioMant n d) (ratioShift n d)

/-- The binary64 datum nearest to a whole number of units. -/
def ofUnits (s : Bool) (n : Nat) : F64 := ofRatio s n 1

/-- Conversion of a natural number to `float64`. -/
def ofNat (n : Nat) : F64 := ofUnits false (n * unitScale)

/-- Go `x + y` on `float64` (round to nearest even). -/
def add (x y : F64) : F64 :=
  if x.isNaN || y.isNaN then nan
  else if x.isInf then
    if y.isInf && (x.sign != y.sign) then nan else x
  else if y.isInf then y
  else if x.sign = y.sign then ofUnits x.sign (x.units + y.units)
  else if y.units < x.units then ofUnits x.sign (x.units - y.units)
  else if x.units < y.units then ofUnits y.sign (y.units - x.units)
  else zero false

/-- Go `x / y` on `float64` (round to nearest even). -/
def div (x y : F64) : F64 :=
  if x.isNaN || y.isNaN then nan
  else if x.isInf then
    if y.isInf then nan else inf (x.sign != y.sign)
  else if y.isInf then zero (x.sign != y.sign)
  else if y.units = 0 then
    if x.units = 0 then nan else inf (x.sign != y.sign)
  else ofRatio (x.sign != y.sign) (x.units * unitScale) y.units

/-- Go `int64(x)` for a `float64`: the fractional part is discarded.  When the
truncated value does not fit (or `x` is not finite) the language leaves the
result to the implementation; the amd64 value `-2^63` is used here. -/
def toInt64 (x : F64) : Int :=
  if x.isFinite then
    let t : Int := ((x.units / unitScale : Nat) : Int)
    let v : Int := if x.sign then -t else t
    if -9223372036854775808 ≤ v ∧ v ≤ 9223372036854775807 then v
    else -9223372036854775808
  else -9223372036854775808

/-- Characters of `fmt.Sprintf("%.2f", x)`: the exact value rounded to two
decimals (ties to even), the sign taken from the sign bit. -/
def fixed2Chars (x : F64) : List Char :=
  if x.isNaN then ['N', 'a', 'N']
  else if x.isInf then (if x.sign then '-' else '+') :: ['I', 'n', 'f']
  else
    let k := roundHalfEven (100 * x.units) unitScale
    (if x.sign then ['-'] else []) ++ Nat.toDigits 10 (k / 100)
      ++ ['.', Nat.digitChar (k % 100 / 10), Nat.digitChar (k % 10)]

/-- Go `fmt.Sprintf("%.2f", x)`. -/
def sprintf2 (x : F64) : String := String.mk (fixed2Chars x)

/-- Numeric value of a decimal digit character. -/
def digitVal (c : Char) : Nat := c.toNat - 48

/-- Scan of an unsigned decimal `digits[.digits]`: `acc` is the integer read
so far, `dot` tells whether the point was seen, `p` counts the digits after
it and `any` tells whether a digit was read.  The result is `(n, p)` for the
value `n / 10^p`. -/
def scanDecimal : List Char → Nat → Bool → Nat → Bool → Option (Nat × Nat)
  | [], acc, _, p, any => if any then some (acc, p) else none
  | c :: cs, acc, dot, p, any =>
    if c = '.' then
      if dot then none else scanDecimal cs acc true p any
    else if c.isDigit then
      scanDecimal cs (acc * 10 + digitVal c) dot (if dot then p + 1 else p) true
    else none

/-- Unsigned part of `parseFloat`: the spelling `Inf`, or a decimal rounded to
the nearest datum; a decimal too large for a finite datum is a range error. -/
def parseUnsigned (s : Bool) (cs : List Char) : Option F64 :=
  if cs = ['I', 'n', 'f'] then some (inf s)
  else
    match scanDecimal cs 0 false 0 false with
    | some (n, p) =>
      if (ofRatio s (n * unitScale) (10 ^ p)).isFinite then
        some (ofRatio s (n * unitScale) (10 ^ p))
      else none
    | none => none

/-- Go `strconv.ParseFloat(s, 64)` on the plain decimal part of its grammar
(optional sign, digits, optional point and digits) and on the spellings
`NaN`, `Inf`, `+Inf`, `-Inf`: the nearest binary64 datum, ties to even.
`none` stands for a returned error; exponents, hexadecimal forms and the
other spellings of the special values are outside this fragment. -/
def parseFloatChars : List Char → Option F64
  | [] => none
  | c :: cs =>
    if c = '-' then parseUnsigned true cs
    else if c = '+' then parseUnsigned false cs
    else if c :: cs = ['N', 'a', 'N'] then some nan
    else parseUnsigned false (c :: cs)

/-- Go `strconv.ParseFloat(s, 64)`, see `parseFloatChars`. -/
def parseFloat (s : String) : Option F64 := parseFloatChars s.data

end F64

/-! ## decoded JSON -/

/-- What `json.Unmarshal` stores in an `interface{}`: `nil`, `bool`,
`float64`, `string`, `[]interface{}` or `map[string]interface{}`. -/
inductive JVal where
  | null : JVal
  | bool (b : Bool) : JVal
  | num (x : F64) : JVal
  | str (s : String) : JVal
  | arr (elems : List JVal) : JVal
  | obj (fields : List (String × JVal)) : JVal

/-- Index expression `m[key]` on a `map[string]interface{}`. -/
def mapIndex (m : List (String × JVal)) (key : String) : Option JVal := m.lookup key

/-- Type assertion `v.([]interface{})`. -/
def asSlice : Option JVal → Option (List JVal)
  | some (JVal.arr l) => some l
  | _ => none

/-- Type assertion `v.(map[string]interface{})`. -/
def asMap : Option JVal → Option (List (String × JVal))
  | some (JVal.obj m) => some m
  | _ => none

/-- The two-value assertion `x, _ := v.(float64)`: the zero value when the
assertion fails. -/
def asFloat64 : Option JVal → F64
  | some (JVal.num x) => x
  | _ => F64.zero false

/-! ## encoding/json output -/

/-- Values stored in the output map: `string` or `int64`. -/
inductive OutVal where
  | str (s : String) : OutVal
  | int64 (n : Int) : OutVal

/-- Lower-case hexadecimal digit. -/
def hexDigit (n : Nat) : Char :=
  if n < 10 then Char.ofNat (48 + n) else Char.ofNat (87 + n)

/-- Encoding of one character inside a JSON string by `json.Marshal`
(HTML escaping on): quote and backslash get a backslash, the five short
control escapes are used, other control characters and `<`, `>`, `&` get the
six-character hexadecimal escape, as do the line and paragraph separators
(code points 8232 and 8233); every other character is copied. -/
def escapeChar (c : Char) : List Char :=
  if c.toNat = 34 ∨ c.toNat = 92 then [Char.ofNat 92, c]
  else if c.toNat = 8 then [Char.ofNat 92, 'b']
  else if c.toNat = 12 then [Char.ofNat 92, 'f']
  else if c.toNat = 10 then [Char.ofNat 92, 'n']
  else if c.toNat = 13 then [Char.ofNat 92, 'r']
  else if c.toNat = 9 then [Char.ofNat 92, 't']
  else if c.toNat < 32 ∨ c.toNat = 60 ∨ c.toNat = 62 ∨ c.toNat = 38 then
    [Char.ofNat 92, 'u', '0', '0', hexDigit (c.toNat / 16), hexDigit (c.toNat % 16)]
  else if c.toNat = 8232 then [Char.ofNat 92, 'u', '2', '0', '2', '8']
  else if c.toNat = 8233 then [Char.ofNat 92, 'u', '2', '0', '2', '9']
  else [c]

/-- JSON string literal for `s`. -/
def quoteChars (s : String) : List Char :=
  Char.ofNat 34 :: (s.data.flatMap escapeChar ++ [Char.ofNat 34])

/-- JSON text of one value. -/
def valueChars : OutVal → List Char
  | OutVal.str s => quoteChars s
  | OutVal.int64 n => (toString n).data

/-- Byte-wise `<` on strings (code-point order, which UTF-8 preserves). -/
def charsLess : List Char → List Char → Bool
  | _, [] => false
  | [], _ :: _ => true
  | a :: as, b :: bs =>
    if a.toNat < b.toNat then true
    else if b.toNat < a.toNat then false
    else charsLess as bs

/-- Insertion of an entry into a list kept in ascending key order. -/
def insertByKey (e : String × OutVal) : List (String × OutVal) → List (String × OutVal)
  | [] => [e]
  | f :: fs => if charsLess f.1.data e.1.data then f :: insertByKey e fs else e :: f :: fs

/-- Entries of a map in ascending key order, the order `json.Marshal` writes them in. -/
def sortByKey : List (String × OutVal) → List (String × OutVal)
  | [] => []
  | e :: es => insertByKey e (sortByKey es)

/-- Comma-separated `"key":value` members. -/
def memberChars : List (String × OutVal) → List Char
  | [] => []
  | [e] => quoteChars e.1 ++ ':' :: valueChars e.2
  | e :: f :: fs => quoteChars e.1 ++ ':' :: valueChars e.2 ++ ',' :: memberChars (f :: fs)

/-- Go `json.Marshal` on a `map[string]interface{}` whose values are strings
and `int64`s.  Both kinds are supported by the encoder, so no error is ever
returned. -/
def jsonMarshal (m : List (String × OutVal)) : Except String String :=
  Except.ok (String.mk (Char.ofNat 123 :: (memberChars (sortByKey m) ++ [Char.ofNat 125])))

/-! ## the process -/

/-- Request handed to the HTTP client. -/
structure Request where
  method : String
  url : String
  header : List (String × String)

/-- Response returned by `client.Do`: the status code and what `io.ReadAll`
on the body will give. -/
structure Response where
  statusCode : Int
  body : Except String String

/-- The program's surroundings: the HTTP round trip and the JSON decoder
`json.Unmarshal` into a `map[string]interface{}`. -/
structure Env where
  clientDo : Request → Except String Response
  unmarshal : String → Except String (List (String × JVal))

/-- What the process has done so far: text written to the two streams and the
requests sent. -/
structure Proc where
  stdout : String
  stderr : String
  sent : List Request

/-- A finished run. -/
structure Outcome where
  exitCode : Nat
  stdout : String
  stderr : String
  sent : List Request

/-- Nothing written, nothing sent. -/
def Proc.start : Proc := ⟨"", "", []⟩

/-- Write to standard error. -/
def Proc.eprint (p : Proc) (s : String) : Proc := ⟨p.stdout, p.stderr ++ s, p.sent⟩

/-- Write to standard output. -/
def Proc.print (p : Proc) (s : String) : Proc := ⟨p.stdout ++ s, p.stderr, p.sent⟩

/-- Hand a request to the HTTP client. -/
def Proc.send (p : Proc) (r : Request) : Proc := ⟨p.stdout, p.stderr, p.sent ++ [r]⟩

/-- Go `os.Exit(code)`, or the return from `main` for code 0. -/
def Proc.exit (p : Proc) (code : Nat) : Outcome := ⟨code, p.stdout, p.stderr, p.sent⟩

/-- Endpoint queried by the program. -/
def url : String := "https://stats.wasabisys.com/v1/standalone/utilizations?latest=true"

/-- The constant `tib = 1099511627776.0` as a `float64`. -/
def tib : F64 := ⟨false, 1063, 0⟩

/-- Lines 22-24: the access key after the positional fallback. -/
def resolveAccessKey (accessFlag : String) (args : List String) : String :=
  if accessFlag = "" ∧ args.length > 0 then args.getD 0 "" else accessFlag

/-- Lines 25-27: the secret key after the positional fallback. -/
def resolveSecretKey (secretFlag : String) (args : List String) : String :=
  if secretFlag = "" ∧ args.length > 1 then args.getD 1 "" else secretFlag

/-- Lines 36-41: `http.NewRequest("GET", url, nil)` followed by
`req.Header.Set("Authorization", ...)`.  With the constant method and the
constant well-formed URL `http.NewRequest` returns no error, so its error
branch does not appear. -/
def buildRequest (accessKeyID secretAccessKey : String) : Request :=
  ⟨"GET", url, [("Authorization", accessKeyID ++ ":" ++ secretAccessKey)]⟩

/-- Line 89: `(padded + metadata) / float64(tib)`. -/
def activeStorageTiB (record : List (String × JVal)) : F64 :=
  F64.div (F64.add (asFloat64 (mapIndex record "PaddedStorageSizeBytes"))
    (asFloat64 (mapIndex record "MetadataStorageSizeBytes"))) tib

/-- Line 90: `deleted / float64(tib)`. -/
def deletedStorageTiB (record : List (String × JVal)) : F64 :=
  F64.div (asFloat64 (mapIndex record "DeletedStorageSizeBytes")) tib

/-- Line 91: `int64(objects)`. -/
def totalObjects (record : List (String × JVal)) : Int :=
  F64.toInt64 (asFloat64 (mapIndex record "NumBillableObjects"))

/-- Lines 94-98: the output map. -/
def outputMap (record : List (String × JVal)) : List (String × OutVal) :=
  [("active", OutVal.str (F64.sprintf2 (activeStorageTiB record))),
   ("deleted", OutVal.str (F64.sprintf2 (deletedStorageTiB record))),
   ("objects", OutVal.int64 (totalObjects record))]

/-- Lines 82-106: from the first record to the end of the run. -/
def report (p : Proc) (record : List (String × JVal)) : Outcome :=
  match jsonMarshal (outputMap record) with
  | Except.error err =>
    (p.eprint ("Error marshaling output JSON: " ++ err ++ "\n")).exit 1
  | Except.ok jsonOutput => (p.print (jsonOutput ++ "\n")).exit 0

/-- Lines 70-106: from the decoded document to the end of the run. -/
def summarize (p : Proc) (data : List (String × JVal)) : Outcome :=
  match asSlice (mapIndex data "Records") with
  | none => (p.eprint "Error: no records found in response\n").exit 1
  | some [] => (p.eprint "Error: no records found in response\n").exit 1
  | some (first :: _) =>
    match asMap (some first) with
    | none => (p.eprint "Error: invalid record format\n").exit 1
    | some record => report p record

/-- Lines 51-106: from the response to the end of the run. -/
def handleResponse (env : Env) (p : Proc) (resp : Response) : Outcome :=
  if resp.statusCode ≠ 200 then
    (p.eprint ("Error: received status code " ++ toString resp.statusCode ++ "\n")).exit 1
  else
    match resp.body with
    | Except.error err => (p.eprint ("Error reading response: " ++ err ++ "\n")).exit 1
    | Except.ok body =>
      match env.unmarshal body with
      | Except.error err => (p.eprint ("Error parsing JSON: " ++ err ++ "\n")).exit 1
      | Except.ok data => summarize p data

/-- The program: `main` run with the two flag values and the positional
arguments left by `flag.Parse`. -/
def main (env : Env) (accessFlag secretFlag : String) (args : List String) : Outcome :=
  let accessKeyID := resolveAccessKey accessFlag args
  let secretAccessKey := resolveSecretKey secretFlag args
  if accessKeyID = "" ∨ secretAccessKey = "" then
    (Proc.start.eprint
      "Error: Access Key ID and Secret Access Key must be provided as arguments or flags\n").exit 1
  else
    let req := buildRequest accessKeyID secretAccessKey
    let p := Proc.start.send req
    match env.clientDo req with
    | Except.error err => (p.eprint ("Error making request: " ++ err ++ "\n")).exit 1
    | Except.ok resp => handleResponse env p resp

/-! ## the specification's vocabulary -/

/-- Diagnostic of the `MissingCredentials` condition. -/
def missingCredentialsMsg : String :=
  "Error: Access Key ID and Secret Access Key must be provided as arguments or flags\n"

/-- Diagnostic of the `NoRecords` condition. -/
def noRecordsMsg : String := "Error: no records found in response\n"

/-- Diagnostic of the `InvalidRecordShape` condition. -/
def invalidRecordMsg : String := "Error: invalid record format\n"

/-- Diagnostic of the `UnexpectedStatus` condition for a status code. -/
def unexpectedStatusMsg (code : Int) : String :=
  "Error: received status code " ++ toString code ++ "\n"

/-- The credential as the specification words it: the flag when it is
non-empty, otherwise the positional argument at index `i` when there is one,
otherwise nothing. -/
def resolvedKey (flagValue : String) (args : List String) (i : Nat) : String :=
  if flagValue ≠ "" then flagValue
  else match args[i]? with
    | some a => a
    | none => ""

/-- The `Records` field is missing, is not a sequence, or is an empty sequence. -/
def NoRecords (data : List (String × JVal)) : Prop :=
  mapIndex data "Records" = none
    ∨ (∃ v, mapIndex data "Records" = some v ∧ ∀ l, v ≠ JVal.arr l)
    ∨ mapIndex data "Records" = some (JVal.arr [])

/-- The `Records` field is a non-empty sequence whose first element is not a mapping. -/
def InvalidRecordShape (data : List (String × JVal)) : Prop :=
  ∃ first rest, mapIndex data "Records" = some (JVal.arr (first :: rest))
    ∧ ∀ m, first ≠ JVal.obj m

/-- The `Records` field is a non-empty sequence whose first element is the mapping `record`. -/
def FirstRecord (data : List (String × JVal)) (record : List (String × JVal)) : Prop :=
  ∃ rest, mapIndex data "Records" = some (JVal.arr (JVal.obj record :: rest))

/-- The run gets as far as a decoded document: the credentials are present,
the request succeeds with status 200, the body is read and decodes to `data`. -/
def Decodes (env : Env) (accessFlag secretFlag : String) (args : List String)
    (data : List (String × JVal)) : Prop :=
  resolveAccessKey accessFlag args ≠ "" ∧ resolveSecretKey secretFlag args ≠ "" ∧
  ∃ resp body,
    env.clientDo (buildRequest (resolveAccessKey accessFlag args)
      (resolveSecretKey secretFlag args)) = Except.ok resp ∧
    resp.statusCode = 200 ∧ resp.body = Except.ok body ∧ env.unmarshal body = Except.ok data

/-- The stdout contract of the specification: the one-line JSON summary. -/
def summaryLine (active deleted : String) (objects : Int) : String :=
  "\x7b\"active\":\"" ++ active ++ "\",\"deleted\":\"" ++ deleted ++ "\",\"objects\":"
    ++ toString objects ++ "\x7d"

/-- Discarding the fractional part of a rational: truncation toward zero. -/
def truncToZero (q : ℚ) : Int := if 0 ≤ q then ⌊q⌋ else ⌈q⌉

/-- Quotient `n / d` rounded to the nearest integer with ties going up, the
everyday reading of "standard rounding" for non-negative values. -/
def roundHalfUp (n d : Nat) : Nat := (2 * n + d) / (2 * d)

/-- The decimal string for `k` hundredths: the integer part, a point and
exactly two digits. -/
def fixed2 (k : Nat) : String :=
  String.mk (Nat.toDigits 10 (k / 100) ++ ['.', Nat.digitChar (k % 100 / 10),
    Nat.digitChar (k % 10)])

/-- The datum `x` is the non-negative integer `p`: finite, sign bit clear and
magnitude exactly `p` (that is `p * 2^1074` units of `2^-1074`). -/
def IsNat (x : F64) (p : Nat) : Prop :=
  x.isFinite = true ∧ x.sign = false ∧ x.units = p * F64.unitScale

/-- The failure conditions the specification names, with what they carry. -/
inductive Failure where
  | missingCredentials : Failure
  | requestError (err : String) : Failure
  | unexpectedStatus (code : Int) : Failure
  | bodyReadError (err : String) : Failure
  | malformedResponse (err : String) : Failure
  | noRecords : Failure
  | invalidRecordShape : Failure
  | outputSerializationError (err : String) : Failure

/-- Text a failure condition puts on the error stream. -/
def Failure.diagnostic : Failure → String
  | Failure.missingCredentials => missingCredentialsMsg
  | Failure.requestError err => "Error making request: " ++ err ++ "\n"
  | Failure.unexpectedStatus code => unexpectedStatusMsg code
  | Failure.bodyReadError err => "Error reading response: " ++ err ++ "\n"
  | Failure.malformedResponse err => "Error parsing JSON: " ++ err ++ "\n"
  | Failure.noRecords => noRecordsMsg
  | Failure.invalidRecordShape => invalidRecordMsg
  | Failure.outputSerializationError err => "Error marshaling output JSON: " ++ err ++ "\n"

/-- Every stage succeeds: the run decodes a document whose first record is `record`. -/
def Succeeds (env : Env) (accessFlag secretFlag : String) (args : List String)
    (record : List (String × JVal)) : Prop :=
  ∃ data, Decodes env accessFlag secretFlag args data ∧ FirstRecord data record

/-- The request the run sends once the credentials are resolved. -/
def sentRequest (accessFlag secretFlag : String) (args : List String) : Request :=
  buildRequest (resolveAccessKey accessFlag args) (resolveSecretKey secretFlag args)

/-- Outcome of a run that prints the summary of `record`. -/
def successOutcome (accessFlag secretFlag : String) (args : List String)
    (record : List (String × JVal)) : Outcome :=
  ⟨0, summaryLine (F64.sprintf2 (activeStorageTiB record))
      (F64.sprintf2 (deletedStorageTiB record)) (totalObjects record) ++ "\n", "",
    [sentRequest accessFlag secretFlag args]⟩

/-- An environment whose request succeeds with status 200 and whose body decodes to `data`. -/
def envOf (data : List (String × JVal)) : Env :=
  ⟨fun _ => Except.ok ⟨200, Except.ok ""⟩, fun _ => Except.ok data⟩

/-- An environment whose request is answered with the given status code and a
body that decodes to `data`. -/
def envStatus (code : Int) (data : List (String × JVal)) : Env :=
  ⟨fun _ => Except.ok ⟨code, Except.ok ""⟩, fun _ => Except.ok data⟩

/-- A record holding the four fields. -/
def recordOf (padded metadata deleted objects : F64) : List (String × JVal) :=
  [("PaddedStorageSizeBytes", JVal.num padded),
   ("MetadataStorageSizeBytes", JVal.num metadata),
   ("DeletedStorageSizeBytes", JVal.num deleted),
   ("NumBillableObjects", JVal.num objects)]

/-- A document with one record holding the four fields. -/
def docOf (padded metadata deleted objects : F64) : List (String × JVal) :=
  [("Records", JVal.arr [JVal.obj (recordOf padded metadata deleted objects)])]

/-- The same four fields in another order, among other fields, in a document
with other members and further records. -/
def noisyRecordOf (padded metadata deleted objects : F64) : List (String × JVal) :=
  [("Region", JVal.str "us-east-1"),
   ("NumBillableObjects", JVal.num objects),
   ("DeletedStorageSizeBytes", JVal.num deleted),
   ("Tags", JVal.arr [JVal.null, JVal.bool true]),
   ("MetadataStorageSizeBytes", JVal.num metadata),
   ("PaddedStorageSizeBytes", JVal.num padded)]

/-- A document whose first record is `noisyRecordOf`, followed by two more records. -/
def noisyDocOf (padded metadata deleted objects : F64) : List (String × JVal) :=
  [("PageInfo", JVal.obj [("RecordCount", JVal.num (F64.ofNat 3))]),
   ("Records", JVal.arr [JVal.obj (noisyRecordOf padded metadata deleted objects),
     JVal.obj (recordOf objects deleted metadata padded), JVal.str "trailer"])]

/-- The `float64` nearest to 5.9, as `json.Unmarshal` decodes the literal `5.9`. -/
def fivePointNine : F64 := ⟨false, 1025, 2139209823000986⟩

/-- The `float64` nearest to -5.9. -/
def minusFivePointNine : F64 := ⟨true, 1025, 2139209823000986⟩

/-- `k / 100` is the hundredth nearest to `q`, and the even one when `q` lies
exactly halfway between two hundredths. -/
def NearestHundredth (q : ℚ) (k : Nat) : Prop :=
  |q * 100 - k| ≤ 1 / 2 ∧ (|q * 100 - k| = 1 / 2 → Even k)

/-- The specification's reading of a field: `v` is the field's value when the
field is present and numeric, and `v` is 0 when the field is absent or holds
anything that is not a number (string, boolean, null, sequence, mapping). -/
def ReadsAs (record : List (String × JVal)) (key : String) (v : F64) : Prop :=
  mapIndex record key = some (JVal.num v) ∨
    ((∀ x, mapIndex record key ≠ some (JVal.num x)) ∧ v = F64.zero false)

/-- A record with a string where the padded size should be, a numeric
metadata size of one tebibyte, no deleted size and 5.9 billable objects. -/
def mixedRecord : List (String × JVal) :=
  [("PaddedStorageSizeBytes", JVal.str "many"),
   ("MetadataStorageSizeBytes", JVal.num (F64.ofNat 1099511627776)),
   ("NumBillableObjects", JVal.num fivePointNine)]

/-- A document whose single record is `mixedRecord`. -/
def mixedDoc : List (String × JVal) := [("Records", JVal.arr [JVal.obj mixedRecord])]

/-! ## the run, stage by stage -/

theorem resolveAccessKey_eq (accessFlag : String) (args : List String) :
    resolveAccessKey accessFlag args = resolvedKey accessFlag args 0 := by
  unfold resolveAccessKey resolvedKey
  by_cases h : accessFlag = ""
  · cases args <;> simp [h]
  · simp [h]

theorem resolveSecretKey_eq (secretFlag : String) (args : List String) :
    resolveSecretKey secretFlag args = resolvedKey secretFlag args 1 := by
  unfold resolveSecretKey resolvedKey
  by_cases h : secretFlag = ""
  · rcases args with _ | ⟨a, _ | ⟨b, t⟩⟩ <;> simp [h]
  · simp [h]

theorem summarize_of_firstRecord (p : Proc) (data record : List (String × JVal))
    (h : FirstRecord data record) : summarize p data = report p record := by
  obtain ⟨rest, h⟩ := h
  simp [summarize, h, asSlice, asMap]

theorem summarize_of_noRecords (p : Proc) (data : List (String × JVal)) (h : NoRecords data) :
    summarize p data = ⟨1, p.stdout, p.stderr ++ noRecordsMsg, p.sent⟩ := by
  rcases h with h | ⟨v, h, hv⟩ | h
  · simp [summarize, h, asSlice, Proc.eprint, Proc.exit, noRecordsMsg]
  · cases v <;> first
      | exact absurd rfl (hv _)
      | simp [summarize, h, asSlice, Proc.eprint, Proc.exit, noRecordsMsg]
  · simp [summarize, h, asSlice, Proc.eprint, Proc.exit, noRecordsMsg]

theorem summarize_of_invalid (p : Proc) (data : List (String × JVal))
    (h : InvalidRecordShape data) :
    summarize p data = ⟨1, p.stdout, p.stderr ++ invalidRecordMsg, p.sent⟩ := by
  obtain ⟨first, rest, h, hv⟩ := h
  cases first <;> first
    | exact absurd rfl (hv _)
    | simp [summarize, h, asSlice, asMap, Proc.eprint, Proc.exit, invalidRecordMsg]

/-- The three shapes of the `Records` field are exhaustive. -/
theorem records_cases (data : List (String × JVal)) :
    NoRecords data ∨ InvalidRecordShape data ∨ ∃ record, FirstRecord data record := by
  unfold NoRecords InvalidRecordShape FirstRecord
  cases h : mapIndex data "Records" with
  | none => exact Or.inl (Or.inl rfl)
  | some v =>
    cases v with
    | arr l =>
      cases l with
      | nil => exact Or.inl (Or.inr (Or.inr rfl))
      | cons first rest =>
        cases first with
        | obj m => exact Or.inr (Or.inr ⟨m, rest, rfl⟩)
        | null => exact Or.inr (Or.inl ⟨_, rest, rfl, fun m hm => by cases hm⟩)
        | bool b => exact Or.inr (Or.inl ⟨_, rest, rfl, fun m hm => by cases hm⟩)
        | num x => exact Or.inr (Or.inl ⟨_, rest, rfl, fun m hm => by cases hm⟩)
        | str t => exact Or.inr (Or.inl ⟨_, rest, rfl, fun m hm => by cases hm⟩)
        | arr l => exact Or.inr (Or.inl ⟨_, rest, rfl, fun m hm => by cases hm⟩)
    | null => exact Or.inl (Or.inr (Or.inl ⟨_, rfl, fun l hl => by cases hl⟩))
    | bool b => exact Or.inl (Or.inr (Or.inl ⟨_, rfl, fun l hl => by cases hl⟩))
    | num x => exact Or.inl (Or.inr (Or.inl ⟨_, rfl, fun l hl => by cases hl⟩))
    | str t => exact Or.inl (Or.inr (Or.inl ⟨_, rfl, fun l hl => by cases hl⟩))
    | obj m => exact Or.inl (Or.inr (Or.inl ⟨_, rfl, fun l hl => by cases hl⟩))

/-- A run that gets as far as a decoded document continues with `summarize`. -/
theorem main_of_decodes (env : Env) (accessFlag secretFlag : String) (args : List String)
    (data : List (String × JVal)) (h : Decodes env accessFlag secretFlag args data) :
    main env accessFlag secretFlag args =
      summarize (Proc.start.send (buildRequest (resolveAccessKey accessFlag args)
        (resolveSecretKey secretFlag args))) data := by
  obtain ⟨ha, hs, resp, body, hdo, hcode, hbody, hdec⟩ := h
  simp [main, ha, hs, hdo, handleResponse, hcode, hbody, hdec]

/-! ## characters of the output -/

theorem digitChar_facts (d : Nat) (h : d < 10) :
    (Nat.digitChar d).isDigit = true ∧ F64.digitVal (Nat.digitChar d) = d ∧
      Nat.digitChar d ≠ '.' ∧ escapeChar (Nat.digitChar d) = [Nat.digitChar d] ∧
      Nat.digitChar d ≠ '\n' ∧ Nat.digitChar d ≠ '-' ∧ Nat.digitChar d ≠ '+' ∧
      Nat.digitChar d ≠ 'N' ∧ Nat.digitChar d ≠ 'I' := by
  interval_cases d <;> decide

theorem mem_toDigitsCore (fuel n : Nat) (ds : List Char) (c : Char)
    (h : c ∈ Nat.toDigitsCore 10 fuel n ds) : c ∈ ds ∨ ∃ d, d < 10 ∧ c = Nat.digitChar d := by
  induction fuel generalizing n ds with
  | zero => exact Or.inl (by simpa [Nat.toDigitsCore] using h)
  | succ fuel ih =>
    rw [Nat.toDigitsCore] at h
    split at h
    · rcases List.mem_cons.mp h with h | h
      · exact Or.inr ⟨n % 10, Nat.mod_lt _ (by decide), h⟩
      · exact Or.inl h
    · rcases ih _ _ h with h | h
      · rcases List.mem_cons.mp h with h | h
        · exact Or.inr ⟨n % 10, Nat.mod_lt _ (by decide), h⟩
        · exact Or.inl h
      · exact Or.inr h

theorem mem_toDigits (n : Nat) (c : Char) (h : c ∈ Nat.toDigits 10 n) :
    ∃ d, d < 10 ∧ c = Nat.digitChar d := by
  rcases mem_toDigitsCore _ _ _ _ h with h | h
  · cases h
  · exact h

/-- Every character `%.2f` can emit: a digit or one of `N a I n f + - .`. -/
theorem mem_fixed2Chars (x : F64) (c : Char) (h : c ∈ F64.fixed2Chars x) :
    (∃ d, d < 10 ∧ c = Nat.digitChar d) ∨
      c ∈ ['N', 'a', 'I', 'n', 'f', '+', '-', '.'] := by
  unfold F64.fixed2Chars at h
  split at h
  · right
    simp only [List.mem_cons, List.mem_singleton, List.not_mem_nil, or_false] at h
    rcases h with rfl | rfl | rfl <;> simp
  · split at h
    · right
      simp only [List.mem_cons, List.mem_singleton, List.not_mem_nil, or_false] at h
      rcases h with h | rfl | rfl | rfl
      · subst h; split <;> simp
      · simp
      · simp
      · simp
    · simp only [List.mem_append, List.mem_cons, List.mem_singleton, List.not_mem_nil,
        or_false] at h
      rcases h with (h | h) | h
      · right
        split at h
        · simp only [List.mem_singleton] at h; subst h; simp
        · cases h
      · exact Or.inl (mem_toDigits _ _ h)
      · rcases h with rfl | h | h
        · right; simp
        · exact Or.inl ⟨_, by omega, h⟩
        · exact Or.inl ⟨_, by omega, h⟩

theorem escapeChar_fixed2Chars (x : F64) (c : Char) (h : c ∈ F64.fixed2Chars x) :
    escapeChar c = [c] := by
  rcases mem_fixed2Chars x c h with ⟨d, hd, rfl⟩ | h
  · exact (digitChar_facts d hd).2.2.2.1
  · simp only [List.mem_cons, List.mem_singleton] at h
    rcases h with h | h | h | h | h | h | h | h | h
    all_goals first
      | (subst h; decide)
      | cases h

theorem flatMap_escapeChar (l : List Char) (h : ∀ c ∈ l, escapeChar c = [c]) :
    l.flatMap escapeChar = l := by
  induction l with
  | nil => rfl
  | cons a t ih =>
    rw [List.flatMap_cons, h a (List.mem_cons_self _ _),
      ih (fun c hc => h c (List.mem_cons_of_mem _ hc))]
    rfl

theorem quoteChars_sprintf2 (x : F64) :
    quoteChars (F64.sprintf2 x) = Char.ofNat 34 :: (F64.fixed2Chars x ++ [Char.ofNat 34]) := by
  unfold quoteChars F64.sprintf2
  rw [flatMap_escapeChar _ (escapeChar_fixed2Chars x)]

/-- The encoder writes the output map as the summary line of the stdout contract. -/
theorem jsonMarshal_outputMap (record : List (String × JVal)) :
    jsonMarshal (outputMap record) =
      Except.ok (summaryLine (F64.sprintf2 (activeStorageTiB record))
        (F64.sprintf2 (deletedStorageTiB record)) (totalObjects record)) := by
  have hsort : sortByKey (outputMap record) = outputMap record := by
    simp [outputMap, sortByKey, insertByKey, charsLess]
  have hk1 : quoteChars "active" = "\"active\"".data := by decide
  have hk2 : quoteChars "deleted" = "\"deleted\"".data := by decide
  have hk3 : quoteChars "objects" = "\"objects\"".data := by decide
  unfold jsonMarshal
  rw [hsort]
  simp only [outputMap, memberChars, valueChars, quoteChars_sprintf2, hk1, hk2, hk3]
  congr 1
  apply String.ext
  simp [summaryLine, F64.sprintf2, String.data_append]

theorem mem_toString_int (n : Int) (c : Char) (h : c ∈ (toString n).data) :
    c = '-' ∨ ∃ d, d < 10 ∧ c = Nat.digitChar d := by
  rcases n with m | m
  · exact Or.inr (mem_toDigits m c h)
  · have h' : c ∈ '-' :: Nat.toDigits 10 (m + 1) := h
    rcases List.mem_cons.mp h' with h' | h'
    · exact Or.inl h'
    · exact Or.inr (mem_toDigits _ c h')

/-- The summary line is a single line. -/
theorem newline_not_mem_summaryLine (x y : F64) (n : Int) :
    '\n' ∉ (summaryLine (F64.sprintf2 x) (F64.sprintf2 y) n).data := by
  have hf : ∀ z : F64, '\n' ∉ F64.fixed2Chars z := by
    intro z hz
    rcases mem_fixed2Chars z _ hz with ⟨d, hd, h⟩ | h
    · exact (digitChar_facts d hd).2.2.2.2.1 h.symm
    · revert h; decide
  have hn : '\n' ∉ (toString n).data := by
    intro hz
    rcases mem_toString_int n _ hz with h | ⟨d, hd, h⟩
    · revert h; decide
    · exact (digitChar_facts d hd).2.2.2.2.1 h.symm
  intro h
  simp only [summaryLine, F64.sprintf2, String.data_append, List.mem_append] at h
  rcases h with ((((((h | h) | h) | h) | h) | h) | h)
  · revert h; decide
  · exact hf x h
  · revert h; decide
  · exact hf y h
  · revert h; decide
  · exact hn h
  · revert h; decide

theorem report_start (r : Request) (record : List (String × JVal)) :
    report (Proc.start.send r) record =
      ⟨0, summaryLine (F64.sprintf2 (activeStorageTiB record))
        (F64.sprintf2 (deletedStorageTiB record)) (totalObjects record) ++ "\n", "", [r]⟩ := by
  unfold report
  rw [jsonMarshal_outputMap]
  simp [Proc.print, Proc.exit, Proc.send, Proc.start]

theorem main_of_succeeds (env : Env) (accessFlag secretFlag : String) (args : List String)
    (record : List (String × JVal)) (h : Succeeds env accessFlag secretFlag args record) :
    main env accessFlag secretFlag args = successOutcome accessFlag secretFlag args record := by
  obtain ⟨data, hd, hr⟩ := h
  rw [main_of_decodes env _ _ _ data hd, summarize_of_firstRecord _ _ _ hr, report_start]
  rfl

theorem decodes_unique (env : Env) (accessFlag secretFlag : String) (args : List String)
    (d1 d2 : List (String × JVal)) (h1 : Decodes env accessFlag secretFlag args d1)
    (h2 : Decodes env accessFlag secretFlag args d2) : d1 = d2 := by
  obtain ⟨_, _, r1, b1, hdo1, _, hb1, hu1⟩ := h1
  obtain ⟨_, _, r2, b2, hdo2, _, hb2, hu2⟩ := h2
  rw [hdo1] at hdo2
  cases hdo2
  rw [hb1] at hb2
  cases hb2
  rw [hu1] at hu2
  cases hu2
  rfl

theorem not_firstRecord_of_noRecords (data record : List (String × JVal))
    (h : NoRecords data) : ¬ FirstRecord data record := by
  rintro ⟨rest, hr⟩
  rcases h with h | ⟨v, h, hv⟩ | h
  · rw [hr] at h; cases h
  · rw [hr] at h; cases h; exact hv _ rfl
  · rw [hr] at h; cases h

theorem not_firstRecord_of_invalid (data record : List (String × JVal))
    (h : InvalidRecordShape data) : ¬ FirstRecord data record := by
  rintro ⟨rest, hr⟩
  obtain ⟨first, rest', h, hv⟩ := h
  rw [hr] at h
  cases h
  exact hv _ rfl

/-- Every run either succeeds on some first record or stops with one of the
named failures, exit status 1 and an untouched standard output. -/
theorem main_cases (env : Env) (accessFlag secretFlag : String) (args : List String) :
    (∃ record, Succeeds env accessFlag secretFlag args record) ∨
    ((¬ ∃ record, Succeeds env accessFlag secretFlag args record) ∧
      ∃ f, main env accessFlag secretFlag args = ⟨1, "", Failure.diagnostic f,
        if resolveAccessKey accessFlag args = "" ∨ resolveSecretKey secretFlag args = ""
        then [] else [sentRequest accessFlag secretFlag args]⟩) := by
  by_cases hc : resolveAccessKey accessFlag args = "" ∨ resolveSecretKey secretFlag args = ""
  · refine Or.inr ⟨?_, Failure.missingCredentials, ?_⟩
    · rintro ⟨record, data, ⟨ha, hs, _⟩, _⟩
      rcases hc with hc | hc
      · exact ha hc
      · exact hs hc
    · rw [if_pos hc]
      simp [main, hc, Proc.eprint, Proc.exit, Proc.start, Failure.diagnostic,
        missingCredentialsMsg]
  · have hc' := hc
    rw [not_or] at hc'
    cases hdo : env.clientDo (sentRequest accessFlag secretFlag args) with
    | error err =>
      refine Or.inr ⟨?_, Failure.requestError err, ?_⟩
      · rintro ⟨record, data, ⟨_, _, resp, body, h, _⟩, _⟩
        rw [sentRequest] at hdo
        rw [hdo] at h
        cases h
      · rw [sentRequest] at hdo
        rw [if_neg hc]
        simp [main, hc, hdo, Proc.eprint, Proc.exit, Proc.start, Proc.send,
          Failure.diagnostic, sentRequest]
    | ok resp =>
      rw [sentRequest] at hdo
      by_cases hcode : resp.statusCode = 200
      · cases hbody : resp.body with
        | error err =>
          refine Or.inr ⟨?_, Failure.bodyReadError err, ?_⟩
          · rintro ⟨record, data, ⟨_, _, resp', body, h, _, hb, _⟩, _⟩
            rw [hdo] at h
            cases h
            rw [hbody] at hb
            cases hb
          · rw [if_neg hc]
            simp [main, hc, hdo, handleResponse, hcode, hbody, Proc.eprint, Proc.exit,
              Proc.start, Proc.send, Failure.diagnostic, sentRequest]
        | ok body =>
          cases hdec : env.unmarshal body with
          | error err =>
            refine Or.inr ⟨?_, Failure.malformedResponse err, ?_⟩
            · rintro ⟨record, data, ⟨_, _, resp', body', h, _, hb, hu⟩, _⟩
              rw [hdo] at h
              cases h
              rw [hbody] at hb
              cases hb
              rw [hdec] at hu
              cases hu
            · rw [if_neg hc]
              simp [main, hc, hdo, handleResponse, hcode, hbody, hdec, Proc.eprint,
                Proc.exit, Proc.start, Proc.send, Failure.diagnostic, sentRequest]
          | ok data =>
            have hd : Decodes env accessFlag secretFlag args data :=
              ⟨hc'.1, hc'.2, resp, body, hdo, hcode, hbody, hdec⟩
            rcases records_cases data with hn | hi | ⟨record, hr⟩
            · refine Or.inr ⟨?_, Failure.noRecords, ?_⟩
              · rintro ⟨record, data', hd', hr'⟩
                rw [decodes_unique env _ _ _ _ _ hd' hd] at hr'
                exact not_firstRecord_of_noRecords _ _ hn hr'
              · rw [if_neg hc, main_of_decodes env _ _ _ data hd, summarize_of_noRecords _ _ hn]
                simp [Proc.start, Proc.send, Failure.diagnostic, sentRequest]
            · refine Or.inr ⟨?_, Failure.invalidRecordShape, ?_⟩
              · rintro ⟨record, data', hd', hr'⟩
                rw [decodes_unique env _ _ _ _ _ hd' hd] at hr'
                exact not_firstRecord_of_invalid _ _ hi hr'
              · rw [if_neg hc, main_of_decodes env _ _ _ data hd, summarize_of_invalid _ _ hi]
                simp [Proc.start, Proc.send, Failure.diagnostic, sentRequest]
            · exact Or.inl ⟨record, data, hd, hr⟩
      · refine Or.inr ⟨?_, Failure.unexpectedStatus resp.statusCode, ?_⟩
        · rintro ⟨record, data, ⟨_, _, resp', body, h, hc200, _⟩, _⟩
          rw [hdo] at h
          cases h
          exact hcode hc200
        · rw [if_neg hc]
          simp [main, hc, hdo, handleResponse, hcode, Proc.eprint, Proc.exit, Proc.start,
            Proc.send, Failure.diagnostic, sentRequest, unexpectedStatusMsg]

/-! ## rounding -/

namespace F64

theorem roundHalfEven_bounds (n d : Nat) (hd : 0 < d) :
    2 * n ≤ 2 * (roundHalfEven n d * d) + d ∧ 2 * (roundHalfEven n d * d) ≤ 2 * n + d ∧
    (2 * n = 2 * (roundHalfEven n d * d) + d → roundHalfEven n d % 2 = 0) ∧
    (2 * (roundHalfEven n d * d) = 2 * n + d → roundHalfEven n d % 2 = 0) := by
  have h := Nat.div_add_mod n d
  have hr := Nat.mod_lt n hd
  have e1 : (n / d + 1) * d = d * (n / d) + d := by ring
  have e0 : n / d * d = d * (n / d) := by ring
  unfold roundHalfEven
  split_ifs with c1 c2 c3
  · rw [e0]; generalize d * (n / d) = Q at *; omega
  · rw [e1]; generalize d * (n / d) = Q at *; omega
  · rw [e0]; generalize d * (n / d) = Q at *; omega
  · rw [e1]
    refine ⟨?_, ?_, ?_, ?_⟩
    · generalize d * (n / d) = Q at *; omega
    · generalize d * (n / d) = Q at *; omega
    · intro _; omega
    · intro _; omega

theorem roundHalfEven_unique (n d k : Nat) (hd : 0 < d)
    (h1 : 2 * n ≤ 2 * (k * d) + d) (h2 : 2 * (k * d) ≤ 2 * n + d)
    (h3 : 2 * n = 2 * (k * d) + d → k % 2 = 0)
    (h4 : 2 * (k * d) = 2 * n + d → k % 2 = 0) : roundHalfEven n d = k := by
  obtain ⟨b1, b2, b3, b4⟩ := roundHalfEven_bounds n d hd
  generalize roundHalfEven n d = k0 at *
  rcases Nat.lt_trichotomy k0 k with hlt | heq | hgt
  · exfalso
    have hm : (k0 + 1) * d ≤ k * d := Nat.mul_le_mul_right d hlt
    have e : (k0 + 1) * d = k0 * d + d := by ring
    rw [e] at hm
    have hk : k * d = k0 * d + d := by omega
    have hk' : k = k0 + 1 := by
      apply Nat.eq_of_mul_eq_mul_right hd
      rw [hk]; ring
    have p1 := h4 (by omega)
    have p2 := b3 (by omega)
    omega
  · exact heq
  · exfalso
    have hm : (k + 1) * d ≤ k0 * d := Nat.mul_le_mul_right d hgt
    have e : (k + 1) * d = k * d + d := by ring
    rw [e] at hm
    have hk : k0 * d = k * d + d := by omega
    have hk' : k0 = k + 1 := by
      apply Nat.eq_of_mul_eq_mul_right hd
      rw [hk]; ring
    have p1 := h3 (by omega)
    have p2 := b4 (by omega)
    omega

theorem roundHalfEven_mul (k d : Nat) (hd : 0 < d) : roundHalfEven (k * d) d = k :=
  roundHalfEven_unique _ _ _ hd (by omega) (by omega) (by omega) (by omega)

theorem roundHalfEven_scale (n d c : Nat) (hd : 0 < d) (hc : 0 < c) :
    roundHalfEven (n * c) (d * c) = roundHalfEven n d := by
  obtain ⟨b1, b2, b3, b4⟩ := roundHalfEven_bounds n d hd
  have e : roundHalfEven n d * (d * c) = roundHalfEven n d * d * c := by ring
  apply roundHalfEven_unique _ _ _ (Nat.mul_pos hd hc)
  · rw [e]
    calc 2 * (n * c) = (2 * n) * c := by ring
      _ ≤ (2 * (roundHalfEven n d * d) + d) * c := Nat.mul_le_mul_right c b1
      _ = 2 * (roundHalfEven n d * d * c) + d * c := by ring
  · rw [e]
    calc 2 * (roundHalfEven n d * d * c) = (2 * (roundHalfEven n d * d)) * c := by ring
      _ ≤ (2 * n + d) * c := Nat.mul_le_mul_right c b2
      _ = 2 * (n * c) + d * c := by ring
  · intro h
    apply b3
    apply Nat.eq_of_mul_eq_mul_right hc
    rw [e] at h
    calc 2 * n * c = 2 * (n * c) := by ring
      _ = 2 * (roundHalfEven n d * d * c) + d * c := h
      _ = (2 * (roundHalfEven n d * d) + d) * c := by ring
  · intro h
    apply b4
    apply Nat.eq_of_mul_eq_mul_right hc
    rw [e] at h
    calc 2 * (roundHalfEven n d * d) * c = 2 * (roundHalfEven n d * d * c) := by ring
      _ = 2 * (n * c) + d * c := h
      _ = (2 * n + d) * c := by ring

theorem excessBits_spec (fuel q : Nat) (h : q < 2 ^ fuel * 9007199254740992) :
    q < 9007199254740992 * 2 ^ excessBits fuel q ∧
    (0 < excessBits fuel q → 4503599627370496 * 2 ^ excessBits fuel q ≤ q) := by
  induction fuel generalizing q with
  | zero => simp [excessBits] at h ⊢; exact h
  | succ fuel ih =>
    unfold excessBits
    split_ifs with c
    · simp; exact c
    · have hq : q / 2 < 2 ^ fuel * 9007199254740992 := by
        rw [pow_succ] at h
        omega
      obtain ⟨i1, i2⟩ := ih (q / 2) hq
      rw [pow_succ]
      generalize excessBits fuel (q / 2) = s at *
      refine ⟨by omega, fun _ => ?_⟩
      rcases Nat.eq_zero_or_pos s with hs | hs
      · subst hs; simp; omega
      · have := i2 hs
        omega

theorem ratioShift_spec (n d : Nat) :
    n / d < 9007199254740992 * 2 ^ ratioShift n d ∧
    (0 < ratioShift n d → 4503599627370496 * 2 ^ ratioShift n d ≤ n / d) := by
  apply excessBits_spec
  have h1 : n / d < 2 ^ (n / d) := Nat.lt_two_pow _
  have h2 : 2 ^ (n / d) * 1 ≤ 2 ^ (n / d) * 9007199254740992 :=
    Nat.mul_le_mul_left _ (by decide)
  omega

theorem ratio_facts (n d : Nat) (hd : 0 < d) :
    n < 9007199254740992 * (d * 2 ^ ratioShift n d) ∧
    (0 < ratioShift n d → 4503599627370496 * (d * 2 ^ ratioShift n d) ≤ n) ∧
    ratioMant n d ≤ 9007199254740992 ∧
    (0 < ratioShift n d → 4503599627370496 ≤ ratioMant n d) := by
  obtain ⟨a, b⟩ := ratioShift_spec n d
  have hD : 0 < d * 2 ^ ratioShift n d := Nat.mul_pos hd (Nat.pow_pos (by decide))
  have a' : n < 9007199254740992 * (d * 2 ^ ratioShift n d) := by
    have := (Nat.div_lt_iff_lt_mul hd).mp a
    calc n < 9007199254740992 * 2 ^ ratioShift n d * d := this
      _ = 9007199254740992 * (d * 2 ^ ratioShift n d) := by ring
  have b' : 0 < ratioShift n d → 4503599627370496 * (d * 2 ^ ratioShift n d) ≤ n := by
    intro hs
    have := (Nat.le_div_iff_mul_le hd).mp (b hs)
    calc 4503599627370496 * (d * 2 ^ ratioShift n d)
        = 4503599627370496 * 2 ^ ratioShift n d * d := by ring
      _ ≤ n := this
  obtain ⟨r1, r2, -, -⟩ := roundHalfEven_bounds n (d * 2 ^ ratioShift n d) hD
  refine ⟨a', b', ?_, ?_⟩
  · unfold ratioMant
    by_contra hc
    have hm := Nat.mul_le_mul_right (d * 2 ^ ratioShift n d) (Nat.lt_of_not_le hc)
    have e : (9007199254740992 + 1) * (d * 2 ^ ratioShift n d)
        = 9007199254740992 * (d * 2 ^ ratioShift n d) + d * 2 ^ ratioShift n d := by ring
    have e' : Nat.succ 9007199254740992 = 9007199254740992 + 1 := rfl
    rw [e', e] at hm
    omega
  · intro hs
    have hb := b' hs
    unfold ratioMant
    by_contra hc
    have hm := Nat.mul_le_mul_right (d * 2 ^ ratioShift n d) (Nat.lt_of_not_le hc)
    have e : Nat.succ (roundHalfEven n (d * 2 ^ ratioShift n d)) * (d * 2 ^ ratioShift n d)
        = roundHalfEven n (d * 2 ^ ratioShift n d) * (d * 2 ^ ratioShift n d)
          + d * 2 ^ ratioShift n d := by
      rw [Nat.succ_mul]
    rw [e] at hm
    omega

theorem two_pow_52 : (4503599627370496 : Nat) = 2 ^ 52 := by norm_num

theorem two_pow_53 : (9007199254740992 : Nat) = 2 ^ 53 := by norm_num

theorem pack_subnormal (sg : Bool) (m sh : Nat) (h : m < 4503599627370496) :
    (pack sg m sh).isFinite = true ∧ (pack sg m sh).sign = sg ∧ (pack sg m sh).units = m := by
  unfold pack
  rw [if_pos h]
  refine ⟨?_, rfl, ?_⟩
  · simp [isFinite]
  · simp [units, mant, Nat.mod_eq_of_lt h]

theorem pack_normal (sg : Bool) (m sh : Nat) (h1 : 4503599627370496 ≤ m)
    (h2 : m < 9007199254740992) (h3 : sh < 2046) :
    (pack sg m sh).isFinite = true ∧ (pack sg m sh).sign = sg ∧
      (pack sg m sh).units = m * 2 ^ sh := by
  have e1 : (sh + 1) % 2048 = sh + 1 := Nat.mod_eq_of_lt (by omega)
  have e2 : (m - 4503599627370496) % 4503599627370496 = m - 4503599627370496 :=
    Nat.mod_eq_of_lt (by omega)
  unfold pack
  rw [if_neg (by omega), if_neg (by omega)]
  refine ⟨?_, rfl, ?_⟩
  · simp [isFinite, e1]; omega
  · simp only [units, mant, e1, e2]
    rw [if_neg (by omega)]
    simp
    omega

/-- When the rounded magnitude stays below `2^1024`, `ofRatio` returns a finite
datum with the requested sign and exactly that magnitude. -/
theorem ofRatio_finite (sg : Bool) (n d : Nat) (hd : 0 < d)
    (hlt : ratioMant n d * 2 ^ ratioShift n d < 2 ^ 2098) :
    (ofRatio sg n d).isFinite = true ∧ (ofRatio sg n d).sign = sg ∧
      (ofRatio sg n d).units = ratioMant n d * 2 ^ ratioShift n d := by
  obtain ⟨-, -, hmT, hmH⟩ := ratio_facts n d hd
  unfold ofRatio
  generalize ratioMant n d = m at *
  generalize ratioShift n d = s at *
  by_cases hT : m = 9007199254740992
  · subst hT
    have hs : s < 2045 := by
      rw [two_pow_53, ← pow_add] at hlt
      have := (Nat.pow_lt_pow_iff_right (by decide : 1 < 2)).mp hlt
      omega
    rw [if_pos rfl]
    obtain ⟨p1, p2, p3⟩ := pack_normal sg 4503599627370496 (s + 1) (by omega) (by omega)
      (by omega)
    refine ⟨p1, p2, ?_⟩
    rw [p3, pow_succ]
    ring
  · rw [if_neg hT]
    by_cases hH : m < 4503599627370496
    · have hs : s = 0 := by
        by_contra hne
        have := hmH (Nat.pos_of_ne_zero hne)
        omega
      subst hs
      obtain ⟨p1, p2, p3⟩ := pack_subnormal sg m 0 hH
      exact ⟨p1, p2, by rw [p3]; simp⟩
    · have hs : s < 2046 := by
        have h1 : 2 ^ 52 * 2 ^ s ≤ m * 2 ^ s := by
          apply Nat.mul_le_mul_right
          rw [← two_pow_52]
          omega
        rw [← pow_add] at h1
        have h2 : 2 ^ (52 + s) < 2 ^ 2098 := lt_of_le_of_lt h1 hlt
        have := (Nat.pow_lt_pow_iff_right (by decide : 1 < 2)).mp h2
        omega
      exact pack_normal sg m s (by omega) (by omega) hs

/-- A ratio below the midpoint between the largest finite magnitude and `2^1024`
rounds to a finite magnitude. -/
theorem ratio_lt_of_lt (n d : Nat) (hd : 0 < d) (hn : n + 2 ^ 2044 * d < 2 ^ 2098 * d) :
    ratioMant n d * 2 ^ ratioShift n d < 2 ^ 2098 := by
  obtain ⟨f1, f2, f3, f4⟩ := ratio_facts n d hd
  have hD : 0 < d * 2 ^ ratioShift n d := Nat.mul_pos hd (Nat.pow_pos (by decide))
  obtain ⟨r1, r2, -, -⟩ := roundHalfEven_bounds n (d * 2 ^ ratioShift n d) hD
  change 2 * (ratioMant n d * (d * 2 ^ ratioShift n d)) ≤ 2 * n + d * 2 ^ ratioShift n d at r2
  generalize ratioMant n d = m at *
  generalize hsdef : ratioShift n d = s at *
  have hs : s ≤ 2045 := by
    rcases Nat.eq_zero_or_pos s with h0 | hpos
    · omega
    · have h1 := f2 hpos
      have h2 : 4503599627370496 * (d * 2 ^ s) < 2 ^ 2098 * d := by omega
      have h3 : 2 ^ (52 + s) * d < 2 ^ 2098 * d := by
        calc 2 ^ (52 + s) * d = 4503599627370496 * (d * 2 ^ s) := by
              rw [pow_add, ← two_pow_52]; ring
          _ < 2 ^ 2098 * d := h2
      have h4 := Nat.lt_of_mul_lt_mul_right h3
      have := (Nat.pow_lt_pow_iff_right (by decide : 1 < 2)).mp h4
      omega
  by_cases hm : m < 9007199254740992
  · calc m * 2 ^ s < 9007199254740992 * 2 ^ s :=
          Nat.mul_lt_mul_of_pos_right hm (Nat.pow_pos (by decide))
      _ = 2 ^ (53 + s) := by rw [two_pow_53, pow_add]
      _ ≤ 2 ^ 2098 := Nat.pow_le_pow_right (by decide) (by omega)
  · have hmT : m = 9007199254740992 := by omega
    subst hmT
    have hs' : s < 2045 := by
      by_contra hc
      have hs2 : s = 2045 := by omega
      subst hs2
      have e1 : (2 : Nat) ^ 2098 * d = 2 * 9007199254740992 * (2 ^ 2044 * d) := by
        rw [two_pow_53]; ring
      have e2 : 9007199254740992 * (d * 2 ^ 2045) = 2 * 9007199254740992 * (2 ^ 2044 * d) := by
        ring
      have e3 : d * 2 ^ 2045 = 2 * (2 ^ 2044 * d) := by ring
      rw [e1] at hn
      rw [e2, e3] at r2
      generalize 2 ^ 2044 * d = X at *
      omega
    calc 9007199254740992 * 2 ^ s = 2 ^ (53 + s) := by rw [two_pow_53, pow_add]
      _ < 2 ^ 2098 := Nat.pow_lt_pow_right (by decide) (by omega)

/-- A magnitude that fits 53 bits at some exponent within range is returned unchanged. -/
theorem ofRatio_exact (sg : Bool) (u d t : Nat) (hd : 0 < d) (ht : t ≤ 2045)
    (hdiv : 2 ^ t ∣ u) (hlt : u < 9007199254740992 * 2 ^ t) :
    (ofRatio sg (u * d) d).isFinite = true ∧ (ofRatio sg (u * d) d).sign = sg ∧
      (ofRatio sg (u * d) d).units = u := by
  obtain ⟨a, b⟩ := ratioShift_spec (u * d) d
  rw [Nat.mul_div_cancel _ hd] at a b
  have hst : ratioShift (u * d) d ≤ t := by
    rcases Nat.eq_zero_or_pos (ratioShift (u * d) d) with h0 | hpos
    · omega
    · have h1 := b hpos
      have h2 : 2 ^ (52 + ratioShift (u * d) d) < 2 ^ (53 + t) := by
        calc 2 ^ (52 + ratioShift (u * d) d)
            = 4503599627370496 * 2 ^ ratioShift (u * d) d := by rw [pow_add, ← two_pow_52]
          _ ≤ u := h1
          _ < 9007199254740992 * 2 ^ t := hlt
          _ = 2 ^ (53 + t) := by rw [two_pow_53, pow_add]
      have := (Nat.pow_lt_pow_iff_right (by decide : 1 < 2)).mp h2
      omega
  have hdvd : 2 ^ ratioShift (u * d) d ∣ u := Dvd.dvd.trans (pow_dvd_pow 2 hst) hdiv
  obtain ⟨j, hj⟩ := hdvd
  have hm : ratioMant (u * d) d = j := by
    unfold ratioMant
    have e : u * d = j * (d * 2 ^ ratioShift (u * d) d) := by
      conv_lhs => rw [hj]
      ring
    have hD : 0 < d * 2 ^ ratioShift (u * d) d := Nat.mul_pos hd (Nat.pow_pos (by decide))
    generalize ratioShift (u * d) d = s at *
    rw [e]
    exact roundHalfEven_mul j _ hD
  have hval : ratioMant (u * d) d * 2 ^ ratioShift (u * d) d = u := by
    rw [hm]
    conv_rhs => rw [hj]
    ring
  have hfin : ratioMant (u * d) d * 2 ^ ratioShift (u * d) d < 2 ^ 2098 := by
    rw [hval]
    calc u < 9007199254740992 * 2 ^ t := hlt
      _ = 2 ^ (53 + t) := by rw [two_pow_53, pow_add]
      _ ≤ 2 ^ 2098 := Nat.pow_le_pow_right (by decide) (by omega)
  obtain ⟨p1, p2, p3⟩ := ofRatio_finite sg (u * d) d hd hfin
  exact ⟨p1, p2, by rw [p3, hval]⟩

/-- A finite datum is a 53-bit significand at an exponent within range. -/
theorem units_rep (x : F64) (hx : x.isFinite = true) :
    x.expo.val - 1 ≤ 2045 ∧ 2 ^ (x.expo.val - 1) ∣ x.units ∧
      x.units < 9007199254740992 * 2 ^ (x.expo.val - 1) ∧ x.mant < 9007199254740992 := by
  have hf := x.frac.isLt
  have hm : x.mant < 9007199254740992 := by
    unfold mant
    split_ifs <;> omega
  simp only [isFinite, decide_eq_true_eq] at hx
  refine ⟨by omega, Dvd.intro_left _ rfl, ?_, hm⟩
  exact Nat.mul_lt_mul_of_pos_right hm (Nat.pow_pos (by decide))

theorem units_bound (x : F64) (hx : x.isFinite = true) : x.units + 2 ^ 2045 ≤ 2 ^ 2098 := by
  obtain ⟨h1, -, -, h4⟩ := units_rep x hx
  have hp : 2 ^ (x.expo.val - 1) ≤ 2 ^ 2045 := Nat.pow_le_pow_right (by decide) h1
  have h5 : x.units ≤ 9007199254740991 * 2 ^ 2045 := by
    unfold units
    exact Nat.mul_le_mul (by omega) hp
  have e : (2 : Nat) ^ 2098 = 9007199254740992 * 2 ^ 2045 := by
    rw [two_pow_53, ← pow_add]
  rw [e]
  generalize 2 ^ 2045 = P at *
  omega

/-- The rounded quotient is a nearest integer. -/
theorem nearest_int (n D m j : Nat) (r1 : 2 * n ≤ 2 * (m * D) + D)
    (r2 : 2 * (m * D) ≤ 2 * n + D) :
    |((m * D : Nat) : Int) - n| ≤ |((j * D : Nat) : Int) - n| := by
  have key : j = m ∨ m * D + D ≤ j * D ∨ j * D + D ≤ m * D := by
    rcases Nat.lt_trichotomy j m with h | h | h
    · right; right
      have := Nat.mul_le_mul_right D h
      rw [Nat.succ_mul] at this
      exact this
    · exact Or.inl h
    · right; left
      have := Nat.mul_le_mul_right D h
      rw [Nat.succ_mul] at this
      exact this
  rcases key with h | h | h
  · subst h; exact le_refl _
  · generalize m * D = A at *
    generalize j * D = B at *
    rcases abs_cases ((A : Int) - n) with ⟨h1, h2⟩ | ⟨h1, h2⟩ <;>
    rcases abs_cases ((B : Int) - n) with ⟨h3, h4⟩ | ⟨h3, h4⟩ <;> omega
  · generalize m * D = A at *
    generalize j * D = B at *
    rcases abs_cases ((A : Int) - n) with ⟨h1, h2⟩ | ⟨h1, h2⟩ <;>
    rcases abs_cases ((B : Int) - n) with ⟨h3, h4⟩ | ⟨h3, h4⟩ <;> omega

/-- Round to nearest: no finite datum is closer to `n / d` units than `ofRatio`. -/
theorem ofRatio_nearest (sg : Bool) (n d : Nat) (hd : 0 < d)
    (hfin : ratioMant n d * 2 ^ ratioShift n d < 2 ^ 2098) (x : F64)
    (hx : x.isFinite = true) :
    |(((ofRatio sg n d).units * d : Nat) : Int) - n| ≤ |((x.units * d : Nat) : Int) - n| := by
  obtain ⟨-, -, p3⟩ := ofRatio_finite sg n d hd hfin
  obtain ⟨f1, f2, f3, f4⟩ := ratio_facts n d hd
  obtain ⟨x1, x2, x3, x4⟩ := units_rep x hx
  have hD : 0 < d * 2 ^ ratioShift n d := Nat.mul_pos hd (Nat.pow_pos (by decide))
  obtain ⟨r1, r2, -, -⟩ := roundHalfEven_bounds n (d * 2 ^ ratioShift n d) hD
  change 2 * n ≤ 2 * (ratioMant n d * (d * 2 ^ ratioShift n d)) + d * 2 ^ ratioShift n d at r1
  change 2 * (ratioMant n d * (d * 2 ^ ratioShift n d)) ≤ 2 * n + d * 2 ^ ratioShift n d at r2
  have ey : (ofRatio sg n d).units * d = ratioMant n d * (d * 2 ^ ratioShift n d) := by
    rw [p3]; ring
  rw [ey]
  generalize ratioMant n d = m at *
  generalize ratioShift n d = s at *
  generalize hD' : d * 2 ^ s = D at *
  by_cases hst : s ≤ x.expo.val - 1
  · have ex : x.units * d = (x.mant * 2 ^ (x.expo.val - 1 - s)) * D := by
      rw [← hD']
      unfold units
      have : x.expo.val - 1 = (x.expo.val - 1 - s) + s := by omega
      conv_lhs => rw [this, pow_add]
      ring
    rw [ex]
    exact nearest_int n D m _ r1 r2
  · have hspos : 0 < s := by omega
    have hHD := f2 hspos
    have hlt : x.units * d < 4503599627370496 * D := by
      have h1 : x.units < 9007199254740992 * 2 ^ (s - 1) := by
        calc x.units < 9007199254740992 * 2 ^ (x.expo.val - 1) := x3
          _ ≤ 9007199254740992 * 2 ^ (s - 1) :=
            Nat.mul_le_mul_left _ (Nat.pow_le_pow_right (by decide) (by omega))
      have h2 : 9007199254740992 * 2 ^ (s - 1) = 4503599627370496 * 2 ^ s := by
        have : s = (s - 1) + 1 := by omega
        conv_rhs => rw [this, pow_succ]
        ring
      rw [h2] at h1
      calc x.units * d < 4503599627370496 * 2 ^ s * d := Nat.mul_lt_mul_of_pos_right h1 hd
        _ = 4503599627370496 * D := by rw [← hD']; ring
    have hH := nearest_int n D m 4503599627370496 r1 r2
    generalize m * D = A at *
    generalize 4503599627370496 * D = B at *
    generalize x.units * d = C at *
    rcases abs_cases ((A : Int) - n) with ⟨h1, h2⟩ | ⟨h1, h2⟩ <;>
    rcases abs_cases ((B : Int) - n) with ⟨h3, h4⟩ | ⟨h3, h4⟩ <;>
    rcases abs_cases ((C : Int) - n) with ⟨h5, h6⟩ | ⟨h5, h6⟩ <;> omega

theorem unitScale_pos : 0 < unitScale := Nat.pow_pos (by decide)

theorem not_special_of_finite (x : F64) (hx : x.isFinite = true) :
    x.isNaN = false ∧ x.isInf = false := by
  simp only [isFinite, decide_eq_true_eq] at hx
  constructor
  · simp [isNaN]; omega
  · simp [isInf]; omega

theorem finite_of_not_special (x : F64) (h1 : x.isNaN = false) (h2 : x.isInf = false) :
    x.isFinite = true := by
  have hlt := x.expo.isLt
  simp only [isFinite, decide_eq_true_eq]
  by_contra hc
  have he : x.expo.val = 2047 := by omega
  by_cases hf : x.frac.val = 0
  · simp [isInf, he, hf] at h2
  · simp [isNaN, he, hf] at h1

/-- Two-decimal rounding survives the trip through the nearest datum: the
datum nearest to `k / 100`, where `k` is the rounding of `100 * |x|`, rounds
back to `k`. -/
theorem reround (x : F64) (hx : x.isFinite = true) :
    (ofRatio x.sign (roundHalfEven (100 * x.units) unitScale * unitScale) 100).isFinite = true ∧
    (ofRatio x.sign (roundHalfEven (100 * x.units) unitScale * unitScale) 100).sign = x.sign ∧
    roundHalfEven
      (100 * (ofRatio x.sign (roundHalfEven (100 * x.units) unitScale * unitScale) 100).units)
      unitScale = roundHalfEven (100 * x.units) unitScale := by
  obtain ⟨b1, b2, b3, b4⟩ := roundHalfEven_bounds (100 * x.units) unitScale unitScale_pos
  have hb := units_bound x hx
  have hU : unitScale < 2 ^ 2044 := Nat.pow_lt_pow_right (by decide) (by decide)
  have hn : roundHalfEven (100 * x.units) unitScale * unitScale + 2 ^ 2044 * 100
      < 2 ^ 2098 * 100 := by
    have e : (2 : Nat) ^ 2045 = 2 * 2 ^ 2044 := by rw [pow_succ]; ring
    rw [e] at hb
    generalize roundHalfEven (100 * x.units) unitScale * unitScale = K at *
    generalize (2 : Nat) ^ 2044 = P at *
    generalize (2 : Nat) ^ 2098 = Q at *
    generalize unitScale = U at *
    omega
  have hfin := ratio_lt_of_lt _ 100 (by decide) hn
  obtain ⟨p1, p2, -⟩ := ofRatio_finite x.sign _ 100 (by decide) hfin
  have hnear := ofRatio_nearest x.sign _ 100 (by decide) hfin x hx
  refine ⟨p1, p2, ?_⟩
  generalize (ofRatio x.sign (roundHalfEven (100 * x.units) unitScale * unitScale) 100).units
    = uy at *
  have ea : x.units * 100 = 100 * x.units := Nat.mul_comm _ _
  have ec : uy * 100 = 100 * uy := Nat.mul_comm _ _
  rw [ea, ec] at hnear
  generalize hk : roundHalfEven (100 * x.units) unitScale = k at *
  apply roundHalfEven_unique _ _ _ unitScale_pos
  all_goals
    generalize k * unitScale = K at *
    generalize 100 * x.units = a at *
    generalize 100 * uy = c at *
    generalize unitScale = U at *
    rcases abs_cases ((c : Int) - K) with ⟨h1, h2⟩ | ⟨h1, h2⟩ <;>
    rcases abs_cases ((a : Int) - K) with ⟨h3, h4⟩ | ⟨h3, h4⟩ <;> omega

theorem toDigitsCore_append (fuel n : Nat) (ds : List Char) :
    Nat.toDigitsCore 10 fuel n ds = Nat.toDigitsCore 10 fuel n [] ++ ds := by
  induction fuel generalizing n ds with
  | zero => simp [Nat.toDigitsCore]
  | succ fuel ih =>
    rw [Nat.toDigitsCore, Nat.toDigitsCore]
    split
    · rfl
    · rw [ih, ih (n / 10) [Nat.digitChar (n % 10)], List.append_assoc]
      rfl

theorem scanDecimal_toDigitsCore (fuel n : Nat) (ds : List Char) (any : Bool)
    (h : n < fuel) :
    scanDecimal (Nat.toDigitsCore 10 fuel n ds) 0 false 0 any = scanDecimal ds n false 0 true := by
  induction fuel generalizing n ds any with
  | zero => omega
  | succ fuel ih =>
    obtain ⟨d1, d2, d3, -⟩ := digitChar_facts (n % 10) (Nat.mod_lt _ (by decide))
    rw [Nat.toDigitsCore]
    split
    · rename_i h0
      rw [scanDecimal, if_neg d3, if_pos d1, d2]
      have : n % 10 = n := by omega
      simp [this]
    · rename_i h0
      rw [ih (n / 10) _ any (by omega), scanDecimal, if_neg d3, if_pos d1, d2]
      have : n / 10 * 10 + n % 10 = n := by omega
      simp [this]

/-- Reading back the digits `%.2f` writes for `k` hundredths gives `k / 10^2`. -/
theorem scanDecimal_fixed (k : Nat) :
    scanDecimal (Nat.toDigits 10 (k / 100)
      ++ ['.', Nat.digitChar (k % 100 / 10), Nat.digitChar (k % 10)]) 0 false 0 false
      = some (k, 2) := by
  obtain ⟨a1, a2, a3, -⟩ := digitChar_facts (k % 100 / 10) (by omega)
  obtain ⟨c1, c2, c3, -⟩ := digitChar_facts (k % 10) (by omega)
  unfold Nat.toDigits
  rw [← toDigitsCore_append, scanDecimal_toDigitsCore _ _ _ _ (by omega)]
  rw [scanDecimal, if_pos rfl]
  simp only [Bool.false_eq_true, if_false]
  rw [scanDecimal, if_neg a3, if_pos a1, a2]
  simp only [if_true]
  rw [scanDecimal, if_neg c3, if_pos c1, c2]
  simp only [if_true, scanDecimal]
  have : (k / 100 * 10 + k % 100 / 10) * 10 + k % 10 = k := by omega
  simp [this]

theorem parseUnsigned_fixed (sg : Bool) (k : Nat)
    (hfin : (ofRatio sg (k * unitScale) 100).isFinite = true) :
    parseUnsigned sg (Nat.toDigits 10 (k / 100)
      ++ ['.', Nat.digitChar (k % 100 / 10), Nat.digitChar (k % 10)])
      = some (ofRatio sg (k * unitScale) 100) := by
  have hne : Nat.toDigits 10 (k / 100)
      ++ ['.', Nat.digitChar (k % 100 / 10), Nat.digitChar (k % 10)] ≠ ['I', 'n', 'f'] := by
    intro h
    have hm : '.' ∈ Nat.toDigits 10 (k / 100)
        ++ ['.', Nat.digitChar (k % 100 / 10), Nat.digitChar (k % 10)] := by simp
    rw [h] at hm
    revert hm
    decide
  unfold parseUnsigned
  rw [if_neg hne, scanDecimal_fixed]
  have e : (10 : Nat) ^ 2 = 100 := by norm_num
  simp only [e, hfin, if_true]

theorem toDigits_cons (n : Nat) :
    ∃ c cs, Nat.toDigits 10 n = c :: cs ∧ ∃ d, d < 10 ∧ c = Nat.digitChar d := by
  have hne : Nat.toDigits 10 n ≠ [] := by
    unfold Nat.toDigits
    rw [Nat.toDigitsCore]
    split
    · simp
    · rw [toDigitsCore_append]; simp
  cases h : Nat.toDigits 10 n with
  | nil => exact absurd h hne
  | cons c cs =>
    exact ⟨c, cs, rfl, mem_toDigits n c (by rw [h]; exact List.mem_cons_self _ _)⟩

/-- Parsing what `%.2f` wrote for a finite datum gives the datum nearest to the
rounded two-decimal value, with the sign that was written. -/
theorem parseFloatChars_fixed (x : F64) (hx : x.isFinite = true) :
    parseFloatChars (fixed2Chars x) =
      some (ofRatio x.sign (roundHalfEven (100 * x.units) unitScale * unitScale) 100) := by
  obtain ⟨n1, n2⟩ := not_special_of_finite x hx
  obtain ⟨hfin, -, -⟩ := reround x hx
  unfold fixed2Chars
  simp only [n1, n2, Bool.false_eq_true, if_false]
  generalize roundHalfEven (100 * x.units) unitScale = k at hfin ⊢
  cases hs : x.sign with
  | true =>
    rw [hs] at hfin
    simp only [if_true, List.cons_append, List.nil_append]
    rw [parseFloatChars, if_pos rfl]
    exact parseUnsigned_fixed true k hfin
  | false =>
    rw [hs] at hfin
    simp only [Bool.false_eq_true, if_false, List.nil_append]
    obtain ⟨c, cs, hc, d, hd, hcd⟩ := toDigits_cons (k / 100)
    obtain ⟨-, -, -, -, -, f1, f2, f3, -⟩ := digitChar_facts d hd
    have hp := parseUnsigned_fixed false k hfin
    rw [hc] at hp ⊢
    rw [List.cons_append] at hp ⊢
    rw [parseFloatChars, if_neg (by rw [hcd]; exact f1), if_neg (by rw [hcd]; exact f2),
      if_neg (by intro h; injection h with h1 _; exact f3 (hcd ▸ h1))]
    exact hp

theorem fixed2Chars_congr (x y : F64) (hx : x.isFinite = true) (hy : y.isFinite = true)
    (hs : y.sign = x.sign)
    (hk : roundHalfEven (100 * y.units) unitScale = roundHalfEven (100 * x.units) unitScale) :
    fixed2Chars y = fixed2Chars x := by
  obtain ⟨n1, n2⟩ := not_special_of_finite x hx
  obtain ⟨m1, m2⟩ := not_special_of_finite y hy
  unfold fixed2Chars
  simp only [n1, n2, m1, m2, Bool.false_eq_true, if_false, hs, hk]

/-- Formatting to two decimals, parsing the text and formatting again gives the
same text, for every binary64 datum. -/
theorem sprintf2_parse_sprintf2 (x : F64) :
    ∃ y, parseFloat (sprintf2 x) = some y ∧ sprintf2 y = sprintf2 x := by
  unfold parseFloat sprintf2
  simp only []
  by_cases h1 : x.isNaN = true
  · refine ⟨nan, ?_, ?_⟩
    · simp only [fixed2Chars, h1, if_true]; rfl
    · simp only [fixed2Chars, h1, if_true]; rfl
  · have h1' : x.isNaN = false := by simpa using h1
    by_cases h2 : x.isInf = true
    · refine ⟨inf x.sign, ?_, ?_⟩
      · simp only [fixed2Chars, h1', h2, Bool.false_eq_true, if_false, if_true]
        cases x.sign <;> rfl
      · simp only [fixed2Chars, h1', h2, Bool.false_eq_true, if_false, if_true]
        cases x.sign <;> rfl
    · have h2' : x.isInf = false := by simpa using h2
      have hx := finite_of_not_special x h1' h2'
      obtain ⟨r1, r2, r3⟩ := reround x hx
      exact ⟨_, parseFloatChars_fixed x hx, by rw [fixed2Chars_congr x _ hx r1 r2 r3]⟩

/-- The `int64` conversion discards the fractional part whenever the value is
within the signed 64-bit range. -/
theorem toInt64_eq_trunc (x : F64) (hx : x.isFinite = true)
    (hlo : (-9223372036854775808 : ℚ) ≤ x.toRat) (hhi : x.toRat ≤ 9223372036854775807) :
    toInt64 x = truncToZero x.toRat := by
  have hU : (0 : ℚ) < (unitScale : ℚ) := by exact_mod_cast unitScale_pos
  have hA : (0 : ℚ) ≤ (x.units : ℚ) / (unitScale : ℚ) := by positivity
  have hfl : ⌊(x.units : ℚ) / (unitScale : ℚ)⌋ = ((x.units / unitScale : Nat) : Int) := by
    rw [Rat.floor_natCast_div_natCast]
    norm_cast
  have hle : (((x.units / unitScale : Nat) : Int) : ℚ) ≤ (x.units : ℚ) / (unitScale : ℚ) := by
    rw [← hfl]
    exact Int.floor_le _
  have hnn : (0 : Int) ≤ ((x.units / unitScale : Nat) : Int) := Int.natCast_nonneg _
  unfold toInt64
  rw [if_pos hx]
  simp only []
  unfold toRat at hlo hhi ⊢
  cases hs : x.sign with
  | false =>
    rw [hs] at hlo hhi
    simp only [Bool.false_eq_true, if_false, one_mul] at hlo hhi ⊢
    have h1 : (((x.units / unitScale : Nat) : Int) : ℚ) ≤ 9223372036854775807 :=
      le_trans hle hhi
    have h2 : ((x.units / unitScale : Nat) : Int) ≤ 9223372036854775807 := by
      exact_mod_cast h1
    rw [if_pos ⟨by omega, h2⟩]
    unfold truncToZero
    rw [if_pos hA, hfl]
  | true =>
    rw [hs] at hlo hhi
    simp only [if_true, neg_mul, one_mul] at hlo hhi ⊢
    have h1 : (((x.units / unitScale : Nat) : Int) : ℚ) ≤ 9223372036854775808 := by
      linarith
    have h2 : ((x.units / unitScale : Nat) : Int) ≤ 9223372036854775808 := by
      exact_mod_cast h1
    rw [if_pos ⟨by omega, by omega⟩]
    unfold truncToZero
    by_cases h0 : (0 : ℚ) ≤ -((x.units : ℚ) / (unitScale : ℚ))
    · have hz : (x.units : ℚ) / (unitScale : ℚ) = 0 := by linarith
      rw [if_pos h0]
      rw [hz] at hfl
      rw [hz]
      simp at hfl ⊢
      omega
    · rw [if_neg h0, Int.ceil_neg, hfl]

end F64

/-! ## exact arithmetic on integer byte counts -/

theorem tib_facts : tib.isNaN = false ∧ tib.isInf = false ∧ tib.sign = false ∧
    tib.units = 1099511627776 * F64.unitScale := by decide

/-- The sum of two integer data is the integer sum when it fits 53 bits. -/
theorem add_isNat (x y : F64) (p m : Nat) (hx : IsNat x p) (hy : IsNat y m)
    (hsum : p + m < 9007199254740992) : IsNat (F64.add x y) (p + m) := by
  obtain ⟨x1, x2, x3⟩ := hx
  obtain ⟨y1, y2, y3⟩ := hy
  obtain ⟨xn, xi⟩ := F64.not_special_of_finite x x1
  obtain ⟨yn, yi⟩ := F64.not_special_of_finite y y1
  unfold F64.add
  simp only [xn, yn, xi, yi, Bool.or_self, Bool.false_eq_true, if_false, x2, y2, if_true]
  unfold F64.ofUnits
  have e : x.units + y.units = (p + m) * F64.unitScale * 1 := by rw [x3, y3]; ring
  rw [e]
  exact F64.ofRatio_exact false ((p + m) * F64.unitScale) 1 1074 (by decide) (by decide)
    (Dvd.intro_left _ rfl) (Nat.mul_lt_mul_of_pos_right hsum F64.unitScale_pos)

/-- Dividing an integer datum by `tib` is exact: the quotient is finite,
non-negative and has magnitude `p / 2^40`. -/
theorem div_tib_isNat (x : F64) (p : Nat) (hx : IsNat x p) :
    (F64.div x tib).isFinite = true ∧ (F64.div x tib).sign = false ∧
      (F64.div x tib).units = p * 2 ^ 1034 := by
  obtain ⟨x1, x2, x3⟩ := hx
  obtain ⟨xn, xi⟩ := F64.not_special_of_finite x x1
  obtain ⟨t1, t2, t3, t4⟩ := tib_facts
  obtain ⟨r1, r2, r3, r4⟩ := F64.units_rep x x1
  have hU : F64.unitScale = 2 ^ 1034 * 1099511627776 := by decide
  have htu : tib.units ≠ 0 := by rw [t4]; decide
  unfold F64.div
  simp only [xn, t1, xi, t2, Bool.or_self, Bool.false_eq_true, if_false, htu, x2, t3,
    bne_self_eq_false]
  have e : x.units * F64.unitScale = p * 2 ^ 1034 * tib.units := by
    rw [x3, t4, hU]
    ring
  rw [e]
  have hd : 0 < tib.units := Nat.pos_of_ne_zero htu
  have hx40 : x.units = p * 2 ^ 1034 * 2 ^ 40 := by
    rw [x3, hU]; ring
  by_cases h40 : 40 ≤ x.expo.val - 1
  · have hpow : (2 : Nat) ^ (x.expo.val - 1) = 2 ^ (x.expo.val - 1 - 40) * 2 ^ 40 := by
      rw [← pow_add]; congr 1; omega
    apply F64.ofRatio_exact false (p * 2 ^ 1034) tib.units (x.expo.val - 1 - 40) hd (by omega)
    · have hmul : p * 2 ^ 1034 * 2 ^ 40 = x.mant * 2 ^ (x.expo.val - 1 - 40) * 2 ^ 40 := by
        rw [← hx40, F64.units, hpow]; ring
      have := Nat.eq_of_mul_eq_mul_right (Nat.pow_pos (by decide)) hmul
      rw [this]
      exact Dvd.intro_left _ rfl
    · have h3 : p * 2 ^ 1034 * 2 ^ 40
          < 9007199254740992 * 2 ^ (x.expo.val - 1 - 40) * 2 ^ 40 := by
        rw [← hx40]
        calc x.units < 9007199254740992 * 2 ^ (x.expo.val - 1) := r3
          _ = 9007199254740992 * 2 ^ (x.expo.val - 1 - 40) * 2 ^ 40 := by rw [hpow]; ring
      exact Nat.lt_of_mul_lt_mul_right h3
  · apply F64.ofRatio_exact false (p * 2 ^ 1034) tib.units 0 hd (by omega) (by simp)
    have h3 : p * 2 ^ 1034 * 2 ^ 40 < 9007199254740992 * 2 ^ 0 * 2 ^ 40 := by
      rw [← hx40]
      calc x.units < 9007199254740992 * 2 ^ (x.expo.val - 1) := r3
        _ ≤ 9007199254740992 * 2 ^ 40 :=
          Nat.mul_le_mul_left _ (Nat.pow_le_pow_right (by decide) (by omega))
        _ = 9007199254740992 * 2 ^ 0 * 2 ^ 40 := by ring
    exact Nat.lt_of_mul_lt_mul_right h3

/-- The text `%.2f` gives for an exact quotient `p / 2^40`. -/
theorem sprintf2_div_tib (x : F64) (p : Nat) (hx : IsNat x p) :
    F64.sprintf2 (F64.div x tib) = fixed2 (F64.roundHalfEven (100 * p) 1099511627776) := by
  obtain ⟨d1, d2, d3⟩ := div_tib_isNat x p hx
  obtain ⟨n1, n2⟩ := F64.not_special_of_finite _ d1
  have hU : F64.unitScale = 1099511627776 * 2 ^ 1034 := by decide
  have hk : F64.roundHalfEven (100 * (F64.div x tib).units) F64.unitScale
      = F64.roundHalfEven (100 * p) 1099511627776 := by
    rw [d3, hU, ← Nat.mul_assoc]
    exact F64.roundHalfEven_scale _ _ _ (by decide) (Nat.pow_pos (by decide))
  unfold F64.sprintf2 fixed2 F64.fixed2Chars
  simp only [n1, n2, d2, Bool.false_eq_true, if_false, List.nil_append, hk]

/-- Rounding to the nearest integer with ties to even, stated over the rationals. -/
theorem roundHalfEven_nearest (n d : Nat) (hd : 0 < d) :
    |(n : ℚ) / d - F64.roundHalfEven n d| ≤ 1 / 2 ∧
      (|(n : ℚ) / d - F64.roundHalfEven n d| = 1 / 2 → Even (F64.roundHalfEven n d)) := by
  obtain ⟨b1, b2, b3, b4⟩ := F64.roundHalfEven_bounds n d hd
  have hdq : (0 : ℚ) < d := by exact_mod_cast hd
  have c1 : (2 : ℚ) * n ≤ 2 * (F64.roundHalfEven n d * d) + d := by exact_mod_cast b1
  have c2 : (2 : ℚ) * (F64.roundHalfEven n d * d) ≤ 2 * n + d := by exact_mod_cast b2
  have hq : (n : ℚ) / d * d = n := by field_simp
  generalize hQ : (n : ℚ) / d = Q at *
  generalize hk : F64.roundHalfEven n d = k at *
  have l1 : Q - k ≤ 1 / 2 := by
    by_contra hc
    push_neg at hc
    have : (1 / 2 : ℚ) * d < (Q - k) * d := mul_lt_mul_of_pos_right hc hdq
    nlinarith
  have l2 : -(1 / 2) ≤ Q - k := by
    by_contra hc
    push_neg at hc
    have : (Q - k) * d < -(1 / 2 : ℚ) * d := mul_lt_mul_of_pos_right hc hdq
    nlinarith
  refine ⟨abs_le.mpr ⟨l2, l1⟩, fun h => ?_⟩
  rw [Nat.even_iff]
  rcases abs_cases (Q - (k : ℚ)) with ⟨h1, -⟩ | ⟨h1, -⟩
  · apply b3
    have : (2 : ℚ) * n = 2 * (k * d) + d := by
      have hh : Q - k = 1 / 2 := by rw [← h1]; exact h
      have : (Q - k) * d = 1 / 2 * d := by rw [hh]
      linarith
    exact_mod_cast this
  · apply b4
    have : (2 : ℚ) * (k * d) = 2 * n + d := by
      have hh : -(Q - k) = 1 / 2 := by rw [← h1]; exact h
      have : -(Q - k) * d = 1 / 2 * d := by rw [hh]
      linarith
    exact_mod_cast this

/-! ## concrete runs -/

theorem decodes_envOf (data : List (String × JVal)) :
    Decodes (envOf data) "key" "secret" [] data :=
  ⟨by decide, by decide, ⟨200, Except.ok ""⟩, "", rfl, rfl, rfl, rfl⟩

theorem succeeds_docOf (a b c d : F64) :
    Succeeds (envOf (docOf a b c d)) "key" "secret" [] (recordOf a b c d) :=
  ⟨_, decodes_envOf _, [], rfl⟩

theorem toRat_range (x : F64)
    (h : x.units ≤ 9223372036854775807 * F64.unitScale) :
    (-9223372036854775808 : ℚ) ≤ x.toRat ∧ x.toRat ≤ 9223372036854775807 := by
  have hU : (0 : ℚ) < (F64.unitScale : ℚ) := by exact_mod_cast F64.unitScale_pos
  have hA : (0 : ℚ) ≤ (x.units : ℚ) / (F64.unitScale : ℚ) := by positivity
  have hB : (x.units : ℚ) / (F64.unitScale : ℚ) ≤ 9223372036854775807 := by
    rw [div_le_iff₀ hU]
    exact_mod_cast h
  unfold F64.toRat
  cases x.sign
  · simp only [Bool.false_eq_true, if_false, one_mul]
    exact ⟨by linarith, hB⟩
  · simp only [if_true, neg_mul, one_mul]
    exact ⟨by linarith, by linarith⟩

/-! ## the claims -/

theorem nearestHundredth_roundHalfEven (p : Nat) :
    NearestHundredth ((p : ℚ) / 1099511627776) (F64.roundHalfEven (100 * p) 1099511627776) := by
  have h := roundHalfEven_nearest (100 * p) 1099511627776 (by decide)
  have e : (p : ℚ) / 1099511627776 * 100 = ((100 * p : Nat) : ℚ) / ((1099511627776 : Nat) : ℚ) := by
    push_cast
    ring
  unfold NearestHundredth
  rw [e]
  exact h

theorem activeStorageTiB_eq (record : List (String × JVal)) (padded metadata : F64)
    (hp : mapIndex record "PaddedStorageSizeBytes" = some (JVal.num padded))
    (hm : mapIndex record "MetadataStorageSizeBytes" = some (JVal.num metadata)) :
    activeStorageTiB record = F64.div (F64.add padded metadata) tib := by
  unfold activeStorageTiB
  rw [hp, hm]
  rfl

theorem deletedStorageTiB_eq (record : List (String × JVal)) (deleted : F64)
    (hd : mapIndex record "DeletedStorageSizeBytes" = some (JVal.num deleted)) :
    deletedStorageTiB record = F64.div deleted tib := by
  unfold deletedStorageTiB
  rw [hd]
  rfl

/-- C1, as stated, fails at the tie `padded = 2^37` (0.125 TiB): the program
prints `0.12` (ties go to the even digit) where rounding half up gives `0.13`. -/
theorem active_tie_not_half_up :
    IsNat (F64.ofNat 137438953472) 137438953472 ∧ IsNat (F64.zero false) 0 ∧
    137438953472 + 0 < 9007199254740992 ∧
    (main (envOf (docOf (F64.ofNat 137438953472) (F64.zero false) (F64.zero false)
      (F64.zero false))) "key" "secret" []).stdout
      = "\x7b\"active\":\"0.12\",\"deleted\":\"0.00\",\"objects\":0\x7d\n" ∧
    summaryLine (fixed2 (roundHalfUp (100 * (137438953472 + 0)) 1099511627776))
      (fixed2 (roundHalfUp (100 * 0) 1099511627776)) 0 ++ "\n"
      = "\x7b\"active\":\"0.13\",\"deleted\":\"0.00\",\"objects\":0\x7d\n" ∧
    (main (envOf (docOf (F64.ofNat 137438953472) (F64.zero false) (F64.zero false)
      (F64.zero false))) "key" "secret" []).stdout
      ≠ summaryLine (fixed2 (roundHalfUp (100 * (137438953472 + 0)) 1099511627776))
        (fixed2 (roundHalfUp (100 * 0) 1099511627776)) 0 ++ "\n" := by
  refine ⟨⟨by decide, by decide, by decide⟩, ⟨by decide, by decide, by decide⟩, by decide,
    by decide, by decide, by decide⟩

/-- C1 (amended): when the first record holds the non-negative integers `p`,
`m`, `dl` as padded, metadata and deleted sizes and `p + m < 2^53`, the run
succeeds and prints the three-key summary whose `active` is the two-decimal
string of the hundredth nearest to `(p + m) / 2^40` and whose `deleted` is
that of the hundredth nearest to `dl / 2^40`, exact ties going to the even
hundredth. -/
theorem summary_nearest_hundredth_ties_even (env : Env) (accessFlag secretFlag : String)
    (args : List String) (record : List (String × JVal)) (padded metadata deleted : F64)
    (p m dl : Nat) (hrun : Succeeds env accessFlag secretFlag args record)
    (hp : mapIndex record "PaddedStorageSizeBytes" = some (JVal.num padded))
    (hm : mapIndex record "MetadataStorageSizeBytes" = some (JVal.num metadata))
    (hd : mapIndex record "DeletedStorageSizeBytes" = some (JVal.num deleted))
    (vp : IsNat padded p) (vm : IsNat metadata m) (vd : IsNat deleted dl)
    (hsum : p + m < 9007199254740992) :
    ∃ ka kd : Nat,
      main env accessFlag secretFlag args =
        ⟨0, summaryLine (fixed2 ka) (fixed2 kd) (totalObjects record) ++ "\n", "",
          [sentRequest accessFlag secretFlag args]⟩ ∧
      NearestHundredth (((p + m : Nat) : ℚ) / 1099511627776) ka ∧
      NearestHundredth ((dl : ℚ) / 1099511627776) kd := by
  refine ⟨F64.roundHalfEven (100 * (p + m)) 1099511627776,
    F64.roundHalfEven (100 * dl) 1099511627776, ?_, nearestHundredth_roundHalfEven _,
    nearestHundredth_roundHalfEven _⟩
  rw [main_of_succeeds env _ _ _ record hrun, successOutcome,
    activeStorageTiB_eq record padded metadata hp hm, deletedStorageTiB_eq record deleted hd,
    sprintf2_div_tib _ _ (add_isNat padded metadata p m vp vm hsum),
    sprintf2_div_tib _ _ vd]

/-- Witness for C1 (amended): a record with padded, metadata and deleted sizes
of 3, 4 and 5 bytes. -/
theorem summary_nearest_hundredth_ties_even_witness :
    ∃ ka kd : Nat,
      main (envOf (docOf (F64.ofNat 3) (F64.ofNat 4) (F64.ofNat 5) (F64.ofNat 6)))
          "key" "secret" [] =
        ⟨0, summaryLine (fixed2 ka) (fixed2 kd)
            (totalObjects (recordOf (F64.ofNat 3) (F64.ofNat 4) (F64.ofNat 5) (F64.ofNat 6)))
            ++ "\n", "", [sentRequest "key" "secret" []]⟩ ∧
      NearestHundredth (((3 + 4 : Nat) : ℚ) / 1099511627776) ka ∧
      NearestHundredth (((5 : Nat) : ℚ) / 1099511627776) kd :=
  summary_nearest_hundredth_ties_even _ "key" "secret" [] _ (F64.ofNat 3) (F64.ofNat 4)
    (F64.ofNat 5) 3 4 5 (succeeds_docOf _ _ _ _) rfl rfl rfl
    ⟨by decide, by decide, by decide⟩ ⟨by decide, by decide, by decide⟩
    ⟨by decide, by decide, by decide⟩ (by decide)

/-- C2: when `NumBillableObjects` is a number `x` within the signed 64-bit
range, the `objects` value of the printed summary is `x` with its fractional
part discarded (truncation toward zero, for either sign); the response with
padded 1099511627776, metadata 0, deleted 0 and 5.9 objects prints exactly
`{"active":"1.00","deleted":"0.00","objects":5}`, keys in that order, and
-5.9 objects prints `-5`. -/
theorem objects_truncates_toward_zero (env : Env) (accessFlag secretFlag : String)
    (args : List String) (record : List (String × JVal)) (x : F64)
    (hrun : Succeeds env accessFlag secretFlag args record)
    (hx : mapIndex record "NumBillableObjects" = some (JVal.num x))
    (hfin : x.isFinite = true) (hlo : (-9223372036854775808 : ℚ) ≤ x.toRat)
    (hhi : x.toRat ≤ 9223372036854775807) :
    totalObjects record = truncToZero x.toRat ∧
    main env accessFlag secretFlag args =
      ⟨0, summaryLine (F64.sprintf2 (activeStorageTiB record))
          (F64.sprintf2 (deletedStorageTiB record)) (truncToZero x.toRat) ++ "\n", "",
        [sentRequest accessFlag secretFlag args]⟩ ∧
    F64.parseFloat "1099511627776" = some (F64.ofNat 1099511627776) ∧
    F64.parseFloat "0" = some (F64.zero false) ∧
    F64.parseFloat "5.9" = some fivePointNine ∧
    F64.parseFloat "-5.9" = some minusFivePointNine ∧
    (main (envOf (docOf (F64.ofNat 1099511627776) (F64.zero false) (F64.zero false)
      fivePointNine)) "key" "secret" []).stdout
      = "\x7b\"active\":\"1.00\",\"deleted\":\"0.00\",\"objects\":5\x7d\n" ∧
    (main (envOf (docOf (F64.ofNat 1099511627776) (F64.zero false) (F64.zero false)
      minusFivePointNine)) "key" "secret" []).stdout
      = "\x7b\"active\":\"1.00\",\"deleted\":\"0.00\",\"objects\":-5\x7d\n" := by
  have ht : totalObjects record = truncToZero x.toRat := by
    unfold totalObjects
    rw [hx]
    exact F64.toInt64_eq_trunc x hfin hlo hhi
  refine ⟨ht, ?_, by decide, by decide, by decide, by decide, by decide, by decide⟩
  rw [main_of_succeeds env _ _ _ record hrun, successOutcome, ht]

/-- Witness for C2: the record with 5.9 billable objects. -/
theorem objects_truncates_toward_zero_witness :
    fivePointNine.isFinite = true ∧
    totalObjects (recordOf (F64.ofNat 1099511627776) (F64.zero false) (F64.zero false)
      fivePointNine) = truncToZero fivePointNine.toRat :=
  ⟨by decide,
    (objects_truncates_toward_zero _ "key" "secret" [] _ fivePointNine
      (succeeds_docOf (F64.ofNat 1099511627776) (F64.zero false) (F64.zero false)
        fivePointNine) rfl (by decide) (toRat_range _ (by decide)).1
      (toRat_range _ (by decide)).2).1⟩

/-- C3: once the body has been decoded, the run fails with "no records found"
exactly when `Records` is missing, not a sequence (null included) or empty; it
fails with "invalid record format" exactly when `Records` is a non-empty
sequence whose first element is not a mapping; in the one remaining case, a
non-empty sequence whose first element is a mapping, it prints the summary
and raises neither failure. -/
theorem records_failures (env : Env) (accessFlag secretFlag : String) (args : List String)
    (data : List (String × JVal)) (hdec : Decodes env accessFlag secretFlag args data) :
    (main env accessFlag secretFlag args =
        ⟨1, "", noRecordsMsg, [sentRequest accessFlag secretFlag args]⟩ ↔ NoRecords data) ∧
    (main env accessFlag secretFlag args =
        ⟨1, "", invalidRecordMsg, [sentRequest accessFlag secretFlag args]⟩
      ↔ InvalidRecordShape data) ∧
    (∀ record, FirstRecord data record →
      main env accessFlag secretFlag args = successOutcome accessFlag secretFlag args record) ∧
    (NoRecords data ∨ InvalidRecordShape data ∨ ∃ record, FirstRecord data record) := by
  have hno : NoRecords data → main env accessFlag secretFlag args =
      ⟨1, "", noRecordsMsg, [sentRequest accessFlag secretFlag args]⟩ := by
    intro h
    rw [main_of_decodes env _ _ _ data hdec, summarize_of_noRecords _ _ h]
    simp [Proc.start, Proc.send, sentRequest]
  have hinv : InvalidRecordShape data → main env accessFlag secretFlag args =
      ⟨1, "", invalidRecordMsg, [sentRequest accessFlag secretFlag args]⟩ := by
    intro h
    rw [main_of_decodes env _ _ _ data hdec, summarize_of_invalid _ _ h]
    simp [Proc.start, Proc.send, sentRequest]
  have hok : ∀ record, FirstRecord data record →
      main env accessFlag secretFlag args = successOutcome accessFlag secretFlag args record :=
    fun record h => main_of_succeeds env _ _ _ record ⟨data, hdec, h⟩
  refine ⟨⟨fun h => ?_, hno⟩, ⟨fun h => ?_, hinv⟩, hok, records_cases data⟩
  · rcases records_cases data with h1 | h2 | ⟨record, h3⟩
    · exact h1
    · rw [hinv h2] at h
      have h' : invalidRecordMsg = noRecordsMsg := congrArg Outcome.stderr h
      exact absurd h' (by decide)
    · rw [hok record h3] at h
      have := congrArg Outcome.exitCode h
      revert this
      simp [successOutcome]
  · rcases records_cases data with h1 | h2 | ⟨record, h3⟩
    · rw [hno h1] at h
      have h' : noRecordsMsg = invalidRecordMsg := congrArg Outcome.stderr h
      exact absurd h' (by decide)
    · exact h2
    · rw [hok record h3] at h
      have := congrArg Outcome.exitCode h
      revert this
      simp [successOutcome]

/-- Witness for C3: the document `Records: []`. -/
theorem records_failures_witness :
    Decodes (envOf [("Records", JVal.arr [])]) "key" "secret" [] [("Records", JVal.arr [])] ∧
    main (envOf [("Records", JVal.arr [])]) "key" "secret" [] =
      ⟨1, "", noRecordsMsg, [sentRequest "key" "secret" []]⟩ :=
  ⟨decodes_envOf _,
    (records_failures _ "key" "secret" [] _ (decodes_envOf _)).1.mpr (Or.inr (Or.inr rfl))⟩

theorem asFloat64_of_readsAs (record : List (String × JVal)) (key : String) (v : F64)
    (h : ReadsAs record key v) : asFloat64 (mapIndex record key) = v := by
  rcases h with h | ⟨hn, hv⟩
  · rw [h]
    rfl
  · rw [hv]
    cases hk : mapIndex record key with
    | none => rfl
    | some w =>
      cases w with
      | num x => exact absurd hk (hn x)
      | null => rfl
      | bool b => rfl
      | str t => rfl
      | arr l => rfl
      | obj f => rfl

theorem readsAs_total (record : List (String × JVal)) (key : String) :
    ∃ v, ReadsAs record key v := by
  unfold ReadsAs
  cases hk : mapIndex record key with
  | none => exact ⟨_, Or.inr ⟨fun x h => (by cases h), rfl⟩⟩
  | some w =>
    cases w with
    | num x => exact ⟨x, Or.inl rfl⟩
    | null => exact ⟨_, Or.inr ⟨fun x h => (by cases h), rfl⟩⟩
    | bool b => exact ⟨_, Or.inr ⟨fun x h => (by cases h), rfl⟩⟩
    | str t => exact ⟨_, Or.inr ⟨fun x h => (by cases h), rfl⟩⟩
    | arr l => exact ⟨_, Or.inr ⟨fun x h => (by cases h), rfl⟩⟩
    | obj f => exact ⟨_, Or.inr ⟨fun x h => (by cases h), rfl⟩⟩

/-- C4: let the first record be a mapping and let `padded`, `metadata`,
`deleted`, `objects` be the four fields as the specification reads them: the
field's value when it is present and numeric, 0 when it is absent or holds a
string, boolean, null, sequence or mapping.  Then the run succeeds, with exit
status 0 and an empty error stream, and what it prints is the summary
computed from exactly these four values: `(padded + metadata) / tib` and
`deleted / tib` to two decimals and `int64(objects)`.  Such a reading exists
for every record and key, the encoder never returns an error, and a record
without `NumBillableObjects` prints `objects` 0. -/
theorem fields_default_to_zero (env : Env) (accessFlag secretFlag : String)
    (args : List String) (record : List (String × JVal))
    (padded metadata deleted objects : F64)
    (hrun : Succeeds env accessFlag secretFlag args record)
    (hP : ReadsAs record "PaddedStorageSizeBytes" padded)
    (hM : ReadsAs record "MetadataStorageSizeBytes" metadata)
    (hD : ReadsAs record "DeletedStorageSizeBytes" deleted)
    (hO : ReadsAs record "NumBillableObjects" objects) :
    main env accessFlag secretFlag args =
      ⟨0, summaryLine (F64.sprintf2 (F64.div (F64.add padded metadata) tib))
          (F64.sprintf2 (F64.div deleted tib)) (F64.toInt64 objects) ++ "\n", "",
        [sentRequest accessFlag secretFlag args]⟩ ∧
    (∀ key : String, (∃ v, ReadsAs record key v) ∧
      (∀ x, mapIndex record key = some (JVal.num x) → asFloat64 (mapIndex record key) = x) ∧
      (mapIndex record key = none → asFloat64 (mapIndex record key) = F64.zero false) ∧
      (∀ v, mapIndex record key = some v → (∀ x, v ≠ JVal.num x) →
        asFloat64 (mapIndex record key) = F64.zero false)) ∧
    main env accessFlag secretFlag args = successOutcome accessFlag secretFlag args record ∧
    (main env accessFlag secretFlag args).exitCode = 0 ∧
    (main env accessFlag secretFlag args).stderr = "" ∧
    (∀ err, jsonMarshal (outputMap record) ≠ Except.error err) ∧
    (mapIndex record "NumBillableObjects" = none →
      objects = F64.zero false ∧ totalObjects record = 0 ∧
      (main env accessFlag secretFlag args).stdout =
        summaryLine (F64.sprintf2 (F64.div (F64.add padded metadata) tib))
          (F64.sprintf2 (F64.div deleted tib)) 0 ++ "\n") := by
  have hmain := main_of_succeeds env _ _ _ record hrun
  have eP := asFloat64_of_readsAs _ _ _ hP
  have eM := asFloat64_of_readsAs _ _ _ hM
  have eD := asFloat64_of_readsAs _ _ _ hD
  have eO := asFloat64_of_readsAs _ _ _ hO
  have hout : main env accessFlag secretFlag args =
      ⟨0, summaryLine (F64.sprintf2 (F64.div (F64.add padded metadata) tib))
          (F64.sprintf2 (F64.div deleted tib)) (F64.toInt64 objects) ++ "\n", "",
        [sentRequest accessFlag secretFlag args]⟩ := by
    rw [hmain, successOutcome, activeStorageTiB, deletedStorageTiB, totalObjects,
      eP, eM, eD, eO]
  refine ⟨hout, fun key => ⟨readsAs_total record key, ?_, ?_, ?_⟩, hmain, ?_, ?_, ?_, ?_⟩
  · intro x h
    rw [h]
    rfl
  · intro h
    rw [h]
    rfl
  · intro v h hv
    exact asFloat64_of_readsAs record key _
      (Or.inr ⟨fun x hx => hv x (Option.some.inj (h.symm.trans hx)), rfl⟩)
  · rw [hmain]; rfl
  · rw [hmain]; rfl
  · intro err h
    rw [jsonMarshal_outputMap] at h
    cases h
  · intro h
    have hz : objects = F64.zero false := by
      rw [← eO, h]
      rfl
    have ht : totalObjects record = 0 := by
      unfold totalObjects
      rw [h]
      decide
    refine ⟨hz, ht, ?_⟩
    rw [hout, hz]
    have : F64.toInt64 (F64.zero false) = 0 := by decide
    rw [this]

/-- Witness for C4: `mixedRecord`, whose padded size is a string (read as 0),
whose metadata size is one tebibyte, whose deleted size is absent (read as 0)
and whose object count is 5.9; the run prints active 1.00, deleted 0.00 and
5 objects. -/
theorem fields_default_to_zero_witness :
    Succeeds (envOf mixedDoc) "key" "secret" [] mixedRecord ∧
    ReadsAs mixedRecord "PaddedStorageSizeBytes" (F64.zero false) ∧
    ReadsAs mixedRecord "MetadataStorageSizeBytes" (F64.ofNat 1099511627776) ∧
    ReadsAs mixedRecord "DeletedStorageSizeBytes" (F64.zero false) ∧
    ReadsAs mixedRecord "NumBillableObjects" fivePointNine ∧
    main (envOf mixedDoc) "key" "secret" [] =
      ⟨0, summaryLine
          (F64.sprintf2 (F64.div (F64.add (F64.zero false) (F64.ofNat 1099511627776)) tib))
          (F64.sprintf2 (F64.div (F64.zero false) tib)) (F64.toInt64 fivePointNine) ++ "\n",
        "", [sentRequest "key" "secret" []]⟩ ∧
    summaryLine
        (F64.sprintf2 (F64.div (F64.add (F64.zero false) (F64.ofNat 1099511627776)) tib))
        (F64.sprintf2 (F64.div (F64.zero false) tib)) (F64.toInt64 fivePointNine) ++ "\n"
      = "\x7b\"active\":\"1.00\",\"deleted\":\"0.00\",\"objects\":5\x7d\n" :=
  ⟨⟨mixedDoc, decodes_envOf mixedDoc, [], rfl⟩,
    Or.inr ⟨fun x h => (by cases h), rfl⟩, Or.inl rfl,
    Or.inr ⟨fun x h => (by cases h), rfl⟩, Or.inl rfl,
    (fields_default_to_zero (envOf mixedDoc) "key" "secret" [] mixedRecord
      (F64.zero false) (F64.ofNat 1099511627776) (F64.zero false) fivePointNine
      ⟨mixedDoc, decodes_envOf mixedDoc, [], rfl⟩
      (Or.inr ⟨fun x h => (by cases h), rfl⟩) (Or.inl rfl)
      (Or.inr ⟨fun x h => (by cases h), rfl⟩) (Or.inl rfl)).1,
    by decide⟩

/-- C5: the run stops with the missing-credentials diagnostic, exit status 1
and no request built exactly when the access key or the secret key is empty
after resolution (flag if non-empty, otherwise the positional argument 0,
respectively 1, if present); so it stops when both flags are empty and fewer
than two positional arguments are given, and when only the access-key flag is
set and exactly one positional argument is given. -/
theorem missing_credentials_iff (env : Env) (accessFlag secretFlag : String)
    (args : List String) :
    (main env accessFlag secretFlag args = ⟨1, "", missingCredentialsMsg, []⟩ ↔
      (resolvedKey accessFlag args 0 = "" ∨ resolvedKey secretFlag args 1 = "")) ∧
    (accessFlag = "" → secretFlag = "" → args.length < 2 →
      main env accessFlag secretFlag args = ⟨1, "", missingCredentialsMsg, []⟩) ∧
    (accessFlag ≠ "" → secretFlag = "" → args.length = 1 →
      main env accessFlag secretFlag args = ⟨1, "", missingCredentialsMsg, []⟩) := by
  have hfail : (resolvedKey accessFlag args 0 = "" ∨ resolvedKey secretFlag args 1 = "") →
      main env accessFlag secretFlag args = ⟨1, "", missingCredentialsMsg, []⟩ := by
    intro h
    rw [← resolveAccessKey_eq, ← resolveSecretKey_eq] at h
    simp [main, h, Proc.eprint, Proc.exit, Proc.start, missingCredentialsMsg]
  refine ⟨⟨fun h => ?_, hfail⟩, ?_, ?_⟩
  · by_contra hc
    rw [← resolveAccessKey_eq, ← resolveSecretKey_eq] at hc
    rcases main_cases env accessFlag secretFlag args with ⟨record, hs⟩ | ⟨-, f, hf⟩
    · rw [main_of_succeeds env _ _ _ record hs] at h
      have := congrArg Outcome.exitCode h
      revert this
      simp [successOutcome]
    · rw [if_neg hc] at hf
      rw [hf] at h
      have := congrArg Outcome.sent h
      revert this
      simp
  · intro ha hs hlen
    apply hfail
    right
    subst hs
    rcases args with _ | ⟨a, _ | ⟨b, t⟩⟩
    · simp [resolvedKey]
    · simp [resolvedKey]
    · simp at hlen
      omega
  · intro ha hs hlen
    apply hfail
    right
    subst hs
    rcases args with _ | ⟨a, _ | ⟨b, t⟩⟩
    · simp at hlen
    · simp [resolvedKey]
    · simp at hlen

/-- Witness for C5: the access-key flag alone with one positional argument. -/
theorem missing_credentials_iff_witness :
    main (envOf []) "AKIA" "" ["positional"] = ⟨1, "", missingCredentialsMsg, []⟩ :=
  (missing_credentials_iff (envOf []) "AKIA" "" ["positional"]).2.2 (by decide) rfl rfl

/-- C6: when the credential check passes, exactly one request is sent, a GET
to the fixed URL whose only header is `Authorization` with the value
`A ++ ":" ++ S`, where `A` is the access-key flag when non-empty and
otherwise positional argument 0, and `S` the secret-key flag when non-empty
and otherwise positional argument 1; both are non-empty and a non-empty flag
wins over the positional argument. -/
theorem authorization_header (env : Env) (accessFlag secretFlag : String)
    (args : List String) (ha : resolveAccessKey accessFlag args ≠ "")
    (hs : resolveSecretKey secretFlag args ≠ "") :
    (main env accessFlag secretFlag args).sent =
      [⟨"GET", url, [("Authorization",
        resolvedKey accessFlag args 0 ++ ":" ++ resolvedKey secretFlag args 1)]⟩] ∧
    resolvedKey accessFlag args 0 ≠ "" ∧ resolvedKey secretFlag args 1 ≠ "" ∧
    (accessFlag ≠ "" → resolvedKey accessFlag args 0 = accessFlag) ∧
    (secretFlag ≠ "" → resolvedKey secretFlag args 1 = secretFlag) ∧
    (accessFlag = "" → args[0]? = some (resolvedKey accessFlag args 0)) ∧
    (secretFlag = "" → args[1]? = some (resolvedKey secretFlag args 1)) := by
  have hc : ¬ (resolveAccessKey accessFlag args = "" ∨ resolveSecretKey secretFlag args = "") :=
    by simp [ha, hs]
  have hsent : (main env accessFlag secretFlag args).sent =
      [sentRequest accessFlag secretFlag args] := by
    rcases main_cases env accessFlag secretFlag args with ⟨record, hsu⟩ | ⟨-, f, hf⟩
    · rw [main_of_succeeds env _ _ _ record hsu]; rfl
    · rw [hf, if_neg hc]
  rw [resolveAccessKey_eq] at ha
  rw [resolveSecretKey_eq] at hs
  refine ⟨?_, ha, hs, ?_, ?_, ?_, ?_⟩
  · rw [hsent, sentRequest, buildRequest, resolveAccessKey_eq, resolveSecretKey_eq]
  · intro h; simp [resolvedKey, h]
  · intro h; simp [resolvedKey, h]
  · intro h
    subst h
    unfold resolvedKey at ha ⊢
    cases h0 : args[0]? with
    | none => simp [h0] at ha
    | some v => simp
  · intro h
    subst h
    unfold resolvedKey at hs ⊢
    cases h1 : args[1]? with
    | none => simp [h1] at hs
    | some v => simp

/-- Witness for C6: an access-key flag next to two positional arguments. -/
theorem authorization_header_witness :
    resolveAccessKey "AKIA" ["first", "second"] ≠ "" ∧
    resolveSecretKey "" ["first", "second"] ≠ "" ∧
    (main (envOf []) "AKIA" "" ["first", "second"]).sent =
      [⟨"GET", url, [("Authorization",
        resolvedKey "AKIA" ["first", "second"] 0 ++ ":"
          ++ resolvedKey "" ["first", "second"] 1)]⟩] :=
  ⟨by decide, by decide,
    (authorization_header (envOf []) "AKIA" "" ["first", "second"] (by decide)
      (by decide)).1⟩

/-- C7: when the response status is anything but 200, the run stops with the
unexpected-status diagnostic carrying that code and exit status 1, prints
nothing, and the outcome is the same whatever the body is and whatever it
would decode to: the body is neither read nor parsed. -/
theorem unexpected_status (env : Env) (accessFlag secretFlag : String) (args : List String)
    (resp : Response) (ha : resolveAccessKey accessFlag args ≠ "")
    (hs : resolveSecretKey secretFlag args ≠ "")
    (hdo : env.clientDo (sentRequest accessFlag secretFlag args) = Except.ok resp)
    (hcode : resp.statusCode ≠ 200) :
    main env accessFlag secretFlag args =
      ⟨1, "", unexpectedStatusMsg resp.statusCode, [sentRequest accessFlag secretFlag args]⟩ ∧
    ∀ (body : Except String String)
      (unmarshal : String → Except String (List (String × JVal))),
      main ⟨fun _ => Except.ok ⟨resp.statusCode, body⟩, unmarshal⟩ accessFlag secretFlag args
        = main env accessFlag secretFlag args := by
  have key : ∀ (e : Env) (r : Response),
      e.clientDo (sentRequest accessFlag secretFlag args) = Except.ok r →
      r.statusCode ≠ 200 →
      main e accessFlag secretFlag args =
        ⟨1, "", unexpectedStatusMsg r.statusCode, [sentRequest accessFlag secretFlag args]⟩ := by
    intro e r h1 h2
    rw [sentRequest] at h1
    simp [main, ha, hs, h1, handleResponse, h2, Proc.eprint, Proc.exit, Proc.start,
      Proc.send, sentRequest, unexpectedStatusMsg]
  refine ⟨key env resp hdo hcode, fun body unmarshal => ?_⟩
  rw [key env resp hdo hcode, key ⟨fun _ => Except.ok ⟨resp.statusCode, body⟩, unmarshal⟩
    ⟨resp.statusCode, body⟩ rfl hcode]

/-- Witness for C7: status 403 with a body that would be a valid usage response. -/
theorem unexpected_status_witness :
    main (envStatus 403 (docOf (F64.ofNat 1099511627776) (F64.zero false) (F64.zero false)
      fivePointNine)) "key" "secret" [] =
      ⟨1, "", unexpectedStatusMsg 403, [sentRequest "key" "secret" []]⟩ :=
  (unexpected_status (envStatus 403 (docOf (F64.ofNat 1099511627776) (F64.zero false)
    (F64.zero false) fivePointNine)) "key" "secret" [] ⟨403, Except.ok ""⟩ (by decide)
    (by decide) rfl (by decide)).1

/-- C8: standard output is written exactly when every stage succeeds; then the
exit status is 0, nothing is on the error stream and standard output is one
line, the JSON summary followed by a newline; otherwise the exit status is 1,
standard output is untouched and the error stream holds the diagnostic of one
of the named failures. -/
theorem stdout_iff_success (env : Env) (accessFlag secretFlag : String)
    (args : List String) :
    ((main env accessFlag secretFlag args).stdout ≠ "" ↔
      ∃ record, Succeeds env accessFlag secretFlag args record) ∧
    (∀ record, Succeeds env accessFlag secretFlag args record →
      main env accessFlag secretFlag args =
        ⟨0, summaryLine (F64.sprintf2 (activeStorageTiB record))
          (F64.sprintf2 (deletedStorageTiB record)) (totalObjects record) ++ "\n", "",
          [sentRequest accessFlag secretFlag args]⟩ ∧
      '\n' ∉ (summaryLine (F64.sprintf2 (activeStorageTiB record))
          (F64.sprintf2 (deletedStorageTiB record)) (totalObjects record)).data) ∧
    ((¬ ∃ record, Succeeds env accessFlag secretFlag args record) →
      (main env accessFlag secretFlag args).exitCode = 1 ∧
      (main env accessFlag secretFlag args).stdout = "" ∧
      ∃ f, (main env accessFlag secretFlag args).stderr = Failure.diagnostic f) := by
  have hnonempty : ∀ record,
      (successOutcome accessFlag secretFlag args record).stdout ≠ "" := by
    intro record h
    have := congrArg String.data h
    simp [successOutcome, String.data_append] at this
  refine ⟨⟨fun h => ?_, fun ⟨record, hs⟩ => ?_⟩, fun record hs => ⟨?_, ?_⟩, fun hno => ?_⟩
  · rcases main_cases env accessFlag secretFlag args with hs | ⟨-, f, hf⟩
    · exact hs
    · rw [hf] at h
      exact absurd rfl h
  · rw [main_of_succeeds env _ _ _ record hs]
    exact hnonempty record
  · rw [main_of_succeeds env _ _ _ record hs]
    rfl
  · exact newline_not_mem_summaryLine _ _ _
  · rcases main_cases env accessFlag secretFlag args with hs | ⟨-, f, hf⟩
    · exact absurd hs hno
    · rw [hf]
      exact ⟨rfl, rfl, f, rfl⟩

/-- C9: two runs that decode documents whose first records are mappings
reading the same four values (padded, metadata, deleted, objects) print the
same summary, whatever else the records, the record lists and the documents
contain. -/
theorem summary_depends_on_four_fields (env1 env2 : Env) (access1 secret1 : String)
    (args1 : List String) (access2 secret2 : String) (args2 : List String)
    (data1 data2 record1 record2 : List (String × JVal))
    (hd1 : Decodes env1 access1 secret1 args1 data1) (hr1 : FirstRecord data1 record1)
    (hd2 : Decodes env2 access2 secret2 args2 data2) (hr2 : FirstRecord data2 record2)
    (hp : asFloat64 (mapIndex record1 "PaddedStorageSizeBytes")
      = asFloat64 (mapIndex record2 "PaddedStorageSizeBytes"))
    (hm : asFloat64 (mapIndex record1 "MetadataStorageSizeBytes")
      = asFloat64 (mapIndex record2 "MetadataStorageSizeBytes"))
    (hd : asFloat64 (mapIndex record1 "DeletedStorageSizeBytes")
      = asFloat64 (mapIndex record2 "DeletedStorageSizeBytes"))
    (ho : asFloat64 (mapIndex record1 "NumBillableObjects")
      = asFloat64 (mapIndex record2 "NumBillableObjects")) :
    (main env1 access1 secret1 args1).stdout = (main env2 access2 secret2 args2).stdout := by
  rw [main_of_succeeds env1 _ _ _ record1 ⟨data1, hd1, hr1⟩,
    main_of_succeeds env2 _ _ _ record2 ⟨data2, hd2, hr2⟩]
  simp only [successOutcome, activeStorageTiB, deletedStorageTiB, totalObjects, hp, hm, hd, ho]

/-- Witness for C9: a one-record document against a document with other
members, more records and a first record with more fields in another order. -/
theorem summary_depends_on_four_fields_witness :
    (main (envOf (docOf (F64.ofNat 1099511627776) (F64.zero false) (F64.ofNat 5)
      fivePointNine)) "key" "secret" []).stdout =
    (main (envOf (noisyDocOf (F64.ofNat 1099511627776) (F64.zero false) (F64.ofNat 5)
      fivePointNine)) "key" "secret" []).stdout :=
  summary_depends_on_four_fields _ _ "key" "secret" [] "key" "secret" [] _ _
    (recordOf (F64.ofNat 1099511627776) (F64.zero false) (F64.ofNat 5) fivePointNine)
    (noisyRecordOf (F64.ofNat 1099511627776) (F64.zero false) (F64.ofNat 5) fivePointNine)
    (decodes_envOf _) ⟨[], rfl⟩ (decodes_envOf _) ⟨_, rfl⟩ rfl rfl rfl rfl

/-- C10: for every record, the `active` and the `deleted` string of the summary
parse back to a number whose two-decimal formatting is the same string; this
covers negative values that round to zero (`-0.00`), arbitrarily large values
and the infinities an overflowing sum produces. -/
theorem format_idempotent (record : List (String × JVal)) :
    (∃ y, F64.parseFloat (F64.sprintf2 (activeStorageTiB record)) = some y ∧
      F64.sprintf2 y = F64.sprintf2 (activeStorageTiB record)) ∧
    (∃ y, F64.parseFloat (F64.sprintf2 (deletedStorageTiB record)) = some y ∧
      F64.sprintf2 y = F64.sprintf2 (deletedStorageTiB record)) ∧
    ∀ x : F64, ∃ y, F64.parseFloat (F64.sprintf2 x) = some y ∧
      F64.sprintf2 y = F64.sprintf2 x :=
  ⟨F64.sprintf2_parse_sprintf2 _, F64.sprintf2_parse_sprintf2 _, F64.sprintf2_parse_sprintf2⟩

end WasabiStats
